import Mathlib

/-!
Verification development for the vba-mcp-server repository.

The Python sources are shallowly embedded: pure string-processing helpers
become Lean functions over `String` / `List Char`, and the stateful pieces
(the VBA edit pipeline, the Office session registry, the backup manager)
become explicit state-passing functions over record types.  Host (COM)
behaviour that the Python code only calls through an opaque bridge is
modelled by explicit parameters (for example the function serialising the
live module table back to container bytes on save).

Python string primitives (`str.strip`, `str.splitlines`, `str.startswith`,
regular-expression word boundaries) are reproduced first; everything else
is translated function by function from the sources named in the comments.
-/

namespace VbaMcp

/-- Apostrophe character (codepoint 39), used both by the embedded VBA
comment-stripping logic and when rebuilding the source error messages. -/
def aposChar : Char := Char.ofNat 39

/-- Apostrophe as a one-character string. -/
def apos : String := String.mk [aposChar]

/-- Characters for which Python `str.isspace()` holds; this is also the set
stripped by `str.strip()` / `rstrip()` / `lstrip()` and matched by the
regular-expression class `\s` on `str` patterns. -/
def isPySpace (c : Char) : Bool :=
  c == ' ' || c == '\t' || c == '\n' || c == '\r' ||
  c.toNat == 11 || c.toNat == 12 ||
  (28 ≤ c.toNat && c.toNat ≤ 31) ||
  c.toNat == 133 || c.toNat == 160 || c.toNat == 0x1680 ||
  (0x2000 ≤ c.toNat && c.toNat ≤ 0x200a) ||
  c.toNat == 0x2028 || c.toNat == 0x2029 ||
  c.toNat == 0x202f || c.toNat == 0x205f || c.toNat == 0x3000

/-- Python `str.lstrip()` on a character list. -/
def lstripChars (cs : List Char) : List Char := cs.dropWhile isPySpace

/-- Python `str.rstrip()` on a character list. -/
def rstripChars (cs : List Char) : List Char := (cs.reverse.dropWhile isPySpace).reverse

/-- Python `str.strip()` on a character list. -/
def stripChars (cs : List Char) : List Char := rstripChars (lstripChars cs)

/-- Python `str.strip()`. -/
def pyStrip (s : String) : String := String.mk (stripChars s.data)

/-- Python `str.rstrip()`. -/
def pyRstrip (s : String) : String := String.mk (rstripChars s.data)

/-- Characters that terminate a line for Python `str.splitlines()`
(`\r\n` is additionally treated as a single boundary). -/
def isNewlineChar (c : Char) : Bool :=
  c == '\n' || c == '\r' ||
  c.toNat == 11 || c.toNat == 12 ||
  c.toNat == 28 || c.toNat == 29 || c.toNat == 30 ||
  c.toNat == 133 || c.toNat == 0x2028 || c.toNat == 0x2029

/-- Worker for Python `str.splitlines()`: `acc` is the reversed current line;
the pair `\r\n` counts as a single boundary. -/
def splitlinesChars : List Char → List Char → List (List Char)
  | [], acc => if acc.isEmpty then [] else [acc.reverse]
  | [c], acc =>
    if isNewlineChar c then [acc.reverse] else [(c :: acc).reverse]
  | c :: c2 :: rest, acc =>
    if c == '\r' then
      if c2 == '\n' then acc.reverse :: splitlinesChars rest []
      else acc.reverse :: splitlinesChars (c2 :: rest) []
    else if isNewlineChar c then acc.reverse :: splitlinesChars (c2 :: rest) []
    else splitlinesChars (c2 :: rest) (c :: acc)

/-- Python `str.splitlines()` (without `keepends`). -/
def pySplitlines (s : String) : List (List Char) := splitlinesChars s.data []

/-- Join lines with a single newline, as Python `"\n".join(lines)` does. -/
def joinNl : List (List Char) → List Char
  | [] => []
  | [l] => l
  | l :: l2 :: rest => l ++ '\n' :: joinNl (l2 :: rest)

/-- Python regular-expression word characters (`\w`), restricted to ASCII.
All VBA module text the analysed tools accept is ASCII (the edit pipeline
rejects anything else), so this is the relevant fragment. -/
def isWordChar (c : Char) : Bool := c.isAlphanum || c == '_'

/-- Maximal runs of word characters in a text, in order.  A regular
expression `\bW\b` matches a text exactly at those runs equal to `W`. -/
def wordRunsAux : List Char → List Char → List (List Char)
  | [], acc => if acc.isEmpty then [] else [acc.reverse]
  | c :: rest, acc =>
    if isWordChar c then wordRunsAux rest (c :: acc)
    else if acc.isEmpty then wordRunsAux rest []
    else acc.reverse :: wordRunsAux rest []

/-- Maximal word runs of a string. -/
def wordRuns (cs : List Char) : List (List Char) := wordRunsAux cs []

/-- Maximal word runs paired with the text that follows each run; used to
embed the call-site pattern `\b(\w+)\s*\(`. -/
def wordRunsWithRest : List Char → List Char → List (List Char × List Char)
  | [], acc => if acc.isEmpty then [] else [(acc.reverse, [])]
  | c :: rest, acc =>
    if isWordChar c then wordRunsWithRest rest (c :: acc)
    else if acc.isEmpty then wordRunsWithRest rest []
    else (acc.reverse, c :: rest) :: wordRunsWithRest rest []

/-- Lower-case a character list with the ASCII lowering used throughout. -/
def lowerChars (cs : List Char) : List Char := cs.map Char.toLower

/-- Boolean substring check on character lists. -/
def infixCheck (pat : List Char) : List Char → Bool
  | [] => pat.isPrefixOf ([] : List Char)
  | c :: rest => pat.isPrefixOf (c :: rest) || infixCheck pat rest

/-- Boolean substring check on strings (Python `pat in hay`). -/
def containsSubstr (hay pat : String) : Bool := infixCheck pat.data hay.data

/-- Python `hay.split(pat, 1)[1]`: the text after the first occurrence of
`pat`, or `[]` when `pat` does not occur. -/
def afterFirst (pat : List Char) : List Char → List Char
  | [] => []
  | c :: rest =>
    if pat.isPrefixOf (c :: rest) then (c :: rest).drop pat.length
    else afterFirst pat rest

/-- Python `hay.split(pat)[0]`: the text before the first occurrence of
`pat` (the whole text when `pat` does not occur). -/
def beforeFirst (pat : List Char) : List Char → List Char
  | [] => []
  | c :: rest =>
    if pat.isPrefixOf (c :: rest) then []
    else c :: beforeFirst pat rest

/-- Python `str.endswith`. -/
def endsWith (s : String) (suffix : String) : Bool :=
  suffix.data.isSuffixOf s.data

/-! Embedding of `_normalize_vba_code`
(`packages/pro/src/vba_mcp_pro/tools/inject.py`, lines 154-197). -/

/-- Lines the Access host adds automatically; compared against the stripped
line, as in the source. -/
def accessDefaults : List (List Char) :=
  ["Option Compare Database".data, "Option Compare Text".data,
   "Option Compare Binary".data]

/-- Whether a raw line is one of the Access default lines (the source
compares `line.strip()` against the list). -/
def isAccessDefault (l : List Char) : Bool :=
  accessDefaults.contains (stripChars l)

/-- Whether a line is blank after stripping (`not line.strip()`). -/
def isBlankLine (l : List Char) : Bool := (stripChars l).isEmpty

/-- First pass of `_normalize_vba_code` over the split lines: drop Access
default lines when requested and strip trailing whitespace from every kept
line. -/
def normalizeKept (stripAccessDefaults : Bool) (ls : List (List Char)) :
    List (List Char) :=
  ls.filterMap fun l =>
    if stripAccessDefaults && isAccessDefault l then none
    else some (rstripChars l)

/-- Body of `_normalize_vba_code` on split lines: the kept pass followed by
the two `while ... pop` loops removing leading and trailing blank lines. -/
def normalizeLines (stripAccessDefaults : Bool) (ls : List (List Char)) :
    List (List Char) :=
  (((normalizeKept stripAccessDefaults ls).dropWhile
      isBlankLine).reverse.dropWhile isBlankLine).reverse

/-- Embedding of `_normalize_vba_code(code, strip_access_defaults)`. -/
def normalizeVbaCode (code : String) (stripAccessDefaults : Bool) : String :=
  String.mk (joinNl (normalizeLines stripAccessDefaults (pySplitlines code)))

/-! Helper lemmas about Python-style stripping and line splitting. -/

theorem dropWhile_append_singleton_neg {p : Char → Bool} {c : Char}
    (h : p c = false) (xs : List Char) :
    List.dropWhile p (xs ++ [c]) = List.dropWhile p xs ++ [c] := by
  induction xs with
  | nil => simp [List.dropWhile, h]
  | cons a xs ih =>
    by_cases ha : p a
    · simp [List.dropWhile_cons, ha, ih]
    · simp [List.dropWhile_cons, ha]

theorem dropWhile_append_singleton_pos {p : Char → Bool} {c : Char}
    (h : p c = true) (xs : List Char) :
    List.dropWhile p (xs ++ [c]) =
      if (List.dropWhile p xs).isEmpty then [] else List.dropWhile p xs ++ [c] := by
  induction xs with
  | nil => simp [List.dropWhile, h]
  | cons a xs ih =>
    by_cases ha : p a
    · simp [List.dropWhile_cons, ha, ih]
    · simp [List.dropWhile_cons, ha]

theorem rstrip_cons_neg {c : Char} (h : isPySpace c = false) (t : List Char) :
    rstripChars (c :: t) = c :: rstripChars t := by
  simp [rstripChars, dropWhile_append_singleton_neg h]

theorem rstrip_cons_pos {c : Char} (h : isPySpace c = true) (t : List Char) :
    rstripChars (c :: t) =
      if rstripChars t = [] then [] else c :: rstripChars t := by
  simp only [rstripChars, List.reverse_cons]
  rw [dropWhile_append_singleton_pos h]
  by_cases he : List.dropWhile isPySpace t.reverse = []
  · rw [if_pos (by simp [he]), he]
    simp
  · rw [if_neg (by simp [he]), if_neg (by simp [he])]
    simp

theorem rstrip_idem (l : List Char) : rstripChars (rstripChars l) = rstripChars l := by
  simp [rstripChars, List.reverse_reverse, List.dropWhile_idempotent]

theorem lstrip_cons_pos {c : Char} (h : isPySpace c = true) (t : List Char) :
    lstripChars (c :: t) = lstripChars t := by
  simp [lstripChars, List.dropWhile_cons, h]

theorem lstrip_cons_neg {c : Char} (h : isPySpace c = false) (t : List Char) :
    lstripChars (c :: t) = c :: t := by
  simp [lstripChars, List.dropWhile_cons, h]

theorem lstrip_rstrip_comm (l : List Char) :
    lstripChars (rstripChars l) = rstripChars (lstripChars l) := by
  induction l with
  | nil => rfl
  | cons c t ih =>
    by_cases hc : isPySpace c = true
    · rw [rstrip_cons_pos hc, lstrip_cons_pos hc]
      by_cases he : rstripChars t = []
      · rw [if_pos he, ← ih, he]
      · rw [if_neg he, lstrip_cons_pos hc]
        exact ih
    · have hcf : isPySpace c = false := by simpa using hc
      rw [rstrip_cons_neg hcf, lstrip_cons_neg hcf, lstrip_cons_neg hcf,
        rstrip_cons_neg hcf]

theorem strip_rstrip (l : List Char) : stripChars (rstripChars l) = stripChars l := by
  have h1 : stripChars (rstripChars l) = rstripChars (lstripChars (rstripChars l)) := rfl
  rw [h1, lstrip_rstrip_comm, rstrip_idem]
  rfl

theorem isBlank_rstrip (l : List Char) : isBlankLine (rstripChars l) = isBlankLine l := by
  simp [isBlankLine, strip_rstrip]

theorem isAccessDefault_rstrip (l : List Char) :
    isAccessDefault (rstripChars l) = isAccessDefault l := by
  simp [isAccessDefault, strip_rstrip]

theorem dropWhile_head?_false {α : Type} {p : α → Bool} {l : List α} {a : α}
    (h : (List.dropWhile p l).head? = some a) : p a = false := by
  induction l with
  | nil => simp [List.dropWhile] at h
  | cons b t ih =>
    by_cases hb : p b
    · rw [List.dropWhile_cons, if_pos hb] at h; exact ih h
    · rw [List.dropWhile_cons, if_neg hb] at h
      simp at h
      subst h
      simpa using hb

theorem dropWhile_eq_self_of_head? {α : Type} {p : α → Bool} {l : List α} {a : α}
    (h : l.head? = some a) (ha : p a = false) : List.dropWhile p l = l := by
  cases l with
  | nil => rfl
  | cons b t =>
    simp at h
    subst h
    rw [List.dropWhile_cons, if_neg (by simp [ha])]

theorem splitlinesChars_nil (acc : List Char) :
    splitlinesChars [] acc = if acc.isEmpty then [] else [acc.reverse] := rfl

theorem splitlinesChars_cons_newline {c : Char} (h1 : (c == '\r') = false)
    (h2 : isNewlineChar c = true) (rest acc : List Char) :
    splitlinesChars (c :: rest) acc = acc.reverse :: splitlinesChars rest [] := by
  cases rest with
  | nil => simp [splitlinesChars, h2]
  | cons c2 r => simp [splitlinesChars, h1, h2]

theorem splitlinesChars_cons_plain {c : Char} (h2 : isNewlineChar c = false)
    (rest acc : List Char) :
    splitlinesChars (c :: rest) acc = splitlinesChars rest (c :: acc) := by
  have h1 : (c == '\r') = false := by
    cases hc : c == '\r'
    · rfl
    · exfalso
      have : c = '\r' := by exact eq_of_beq hc
      subst this
      simp [isNewlineChar] at h2
  cases rest with
  | nil => simp [splitlinesChars, h2]
  | cons c2 r => simp [splitlinesChars, h1, h2]

theorem splitlinesChars_append_no_nl :
    ∀ cs : List Char, (∀ c ∈ cs, isNewlineChar c = false) →
    ∀ rest acc : List Char,
      splitlinesChars (cs ++ rest) acc = splitlinesChars rest (cs.reverse ++ acc) := by
  intro cs
  induction cs with
  | nil => intro _ rest acc; simp
  | cons c cs ih =>
    intro h rest acc
    have hc : isNewlineChar c = false := h c (by simp)
    rw [List.cons_append, splitlinesChars_cons_plain hc,
      ih (fun x hx => h x (by simp [hx])) rest (c :: acc)]
    congr 1
    simp

theorem splitlinesChars_cons_cr (rest acc : List Char) :
    splitlinesChars ('\r' :: rest) acc =
      acc.reverse ::
        splitlinesChars (if rest.head? == some '\n' then rest.tail else rest) [] := by
  cases rest with
  | nil => simp [splitlinesChars, isNewlineChar]
  | cons c2 r =>
    by_cases hc2 : (c2 == '\n') = true
    · have : c2 = '\n' := eq_of_beq hc2
      subst this
      simp [splitlinesChars]
    · simp [splitlinesChars, hc2]

theorem no_nl_of_mem_splitlinesChars_aux :
    ∀ n, ∀ cs acc : List Char, cs.length ≤ n →
    (∀ c ∈ acc, isNewlineChar c = false) →
    ∀ l ∈ splitlinesChars cs acc, ∀ c ∈ l, isNewlineChar c = false := by
  intro n
  induction n with
  | zero =>
    intro cs acc hlen h l hl
    have hcs : cs = [] := List.length_eq_zero.mp (Nat.le_zero.mp hlen)
    subst hcs
    rw [splitlinesChars_nil] at hl
    by_cases hacc : acc.isEmpty
    · rw [if_pos hacc] at hl; simp at hl
    · rw [if_neg hacc] at hl
      simp at hl
      subst hl
      intro c hc
      exact h c (by simpa using hc)
  | succ n ih =>
    intro cs acc hlen h l hl
    cases cs with
    | nil =>
      rw [splitlinesChars_nil] at hl
      by_cases hacc : acc.isEmpty
      · rw [if_pos hacc] at hl; simp at hl
      · rw [if_neg hacc] at hl
        simp at hl
        subst hl
        intro c hc
        exact h c (by simpa using hc)
    | cons c rest =>
      simp only [List.length_cons] at hlen
      by_cases hcr : (c == '\r') = true
      · have : c = '\r' := eq_of_beq hcr
        subst this
        rw [splitlinesChars_cons_cr] at hl
        rcases List.mem_cons.mp hl with h1 | h1
        · subst h1
          intro x hx
          exact h x (by simpa using hx)
        · refine ih _ [] ?_ (by simp) l h1
          by_cases hx : (rest.head? == some '\n') = true
          · rw [if_pos hx]
            have := List.length_tail rest
            omega
          · rw [if_neg hx]
            omega
      · by_cases hnl : isNewlineChar c = true
        · rw [splitlinesChars_cons_newline (by simpa using hcr) hnl] at hl
          rcases List.mem_cons.mp hl with h1 | h1
          · subst h1
            intro x hx
            exact h x (by simpa using hx)
          · exact ih _ [] (by omega) (by simp) l h1
        · rw [splitlinesChars_cons_plain (by simpa using hnl)] at hl
          refine ih _ (c :: acc) (by omega) ?_ l hl
          intro x hx
          rcases List.mem_cons.mp hx with h1 | h1
          · subst h1; simpa using hnl
          · exact h x h1

theorem no_nl_of_mem_splitlinesChars :
    ∀ cs acc : List Char, (∀ c ∈ acc, isNewlineChar c = false) →
    ∀ l ∈ splitlinesChars cs acc, ∀ c ∈ l, isNewlineChar c = false := by
  intro cs acc
  exact no_nl_of_mem_splitlinesChars_aux cs.length cs acc le_rfl

theorem splitlines_joinNl :
    ∀ ls : List (List Char),
    (∀ l ∈ ls, ∀ c ∈ l, isNewlineChar c = false) →
    ls.getLast? ≠ some ([] : List Char) →
    splitlinesChars (joinNl ls) [] = ls := by
  intro ls
  induction ls with
  | nil => intro _ _; simp [joinNl, splitlinesChars_nil]
  | cons l ls ih =>
    intro hnl hlast
    cases ls with
    | nil =>
      have hl : l ≠ [] := by
        intro h
        exact hlast (by simp [h])
      have h0 : joinNl [l] = l := rfl
      rw [h0]
      have h1 := splitlinesChars_append_no_nl l (hnl l (by simp)) [] []
      rw [List.append_nil] at h1
      rw [h1, splitlinesChars_nil]
      rw [if_neg (by simpa using hl)]
      simp
    | cons l2 ls2 =>
      have h0 : joinNl (l :: l2 :: ls2) = l ++ '\n' :: joinNl (l2 :: ls2) := rfl
      rw [h0, splitlinesChars_append_no_nl l (hnl l (by simp)) _ [],
        splitlinesChars_cons_newline (by decide) (by decide)]
      simp only [List.append_nil, List.reverse_reverse]
      congr 1
      refine ih (fun x hx => hnl x (by simp [hx])) ?_
      simpa [List.getLast?_cons_cons] using hlast

theorem mem_rstrip {c : Char} {l : List Char} (h : c ∈ rstripChars l) : c ∈ l := by
  rw [rstripChars, List.mem_reverse] at h
  have := (List.dropWhile_suffix isPySpace (l := l.reverse)).sublist.subset h
  simpa using this

theorem mem_of_mem_normalizeLines {b : Bool} {ls : List (List Char)} {l : List Char}
    (h : l ∈ normalizeLines b ls) :
    ∃ a ∈ ls, l = rstripChars a ∧ (b && isAccessDefault a) = false := by
  unfold normalizeLines at h
  rw [List.mem_reverse] at h
  have h2 := (List.dropWhile_suffix isBlankLine).sublist.subset h
  rw [List.mem_reverse] at h2
  have h3 := (List.dropWhile_suffix isBlankLine).sublist.subset h2
  rw [normalizeKept, List.mem_filterMap] at h3
  obtain ⟨a, ha, hfa⟩ := h3
  by_cases hcond : (b && isAccessDefault a) = true
  · rw [if_pos hcond] at hfa
    simp at hfa
  · rw [if_neg hcond] at hfa
    simp at hfa
    exact ⟨a, ha, hfa.symm, by simpa using hcond⟩

theorem getLast?_of_suffix {α : Type} {q r : List α} (h : q <:+ r) (hq : q ≠ []) :
    q.getLast? = r.getLast? := by
  obtain ⟨u, rfl⟩ := h
  exact (List.getLast?_append_of_ne_nil u hq).symm

theorem normalizeLines_getLast?_not_blank {b : Bool} {ls : List (List Char)}
    {x : List Char} (h : (normalizeLines b ls).getLast? = some x) :
    isBlankLine x = false := by
  unfold normalizeLines at h
  rw [List.getLast?_reverse] at h
  exact dropWhile_head?_false h

theorem normalizeLines_head?_not_blank {b : Bool} {ls : List (List Char)}
    {x : List Char} (h : (normalizeLines b ls).head? = some x) :
    isBlankLine x = false := by
  unfold normalizeLines at h
  rw [List.head?_reverse] at h
  have hqne : ((normalizeKept b ls).dropWhile
      isBlankLine).reverse.dropWhile isBlankLine ≠ [] := by
    intro hq
    rw [hq] at h
    simp at h
  have hsuf := List.dropWhile_suffix (l :=
    ((normalizeKept b ls).dropWhile isBlankLine).reverse) isBlankLine
  have hlast := getLast?_of_suffix hsuf hqne
  rw [hlast, List.getLast?_reverse] at h
  exact dropWhile_head?_false h

theorem normalizeLines_idem (b : Bool) (ls : List (List Char)) :
    normalizeLines b (normalizeLines b ls) = normalizeLines b ls := by
  have h1 : normalizeKept b (normalizeLines b ls) = normalizeLines b ls := by
    unfold normalizeKept
    have hcong : ∀ a ∈ normalizeLines b ls,
        (if b && isAccessDefault a then none else some (rstripChars a)) = some a := by
      intro a ha
      obtain ⟨a0, -, rfl, hc⟩ := mem_of_mem_normalizeLines ha
      have hcond : (b && isAccessDefault (rstripChars a0)) = false := by
        rw [isAccessDefault_rstrip]
        exact hc
      rw [if_neg (by simp [hcond]), rstrip_idem]
    rw [List.filterMap_congr hcong, List.filterMap_some]
  have h2 : (normalizeLines b ls).dropWhile isBlankLine = normalizeLines b ls := by
    cases hout : (normalizeLines b ls).head? with
    | none =>
      have : normalizeLines b ls = [] := by
        cases h : normalizeLines b ls
        · rfl
        · rw [h] at hout; simp at hout
      rw [this]
      rfl
    | some x =>
      exact dropWhile_eq_self_of_head? hout (normalizeLines_head?_not_blank hout)
  have h3 : (normalizeLines b ls).reverse.dropWhile isBlankLine =
      (normalizeLines b ls).reverse := by
    show ((((normalizeKept b ls).dropWhile isBlankLine).reverse.dropWhile
      isBlankLine).reverse).reverse.dropWhile isBlankLine = _
    rw [List.reverse_reverse, List.dropWhile_idempotent]
    unfold normalizeLines
    rw [List.reverse_reverse]
  calc normalizeLines b (normalizeLines b ls)
      = (((normalizeKept b (normalizeLines b ls)).dropWhile
          isBlankLine).reverse.dropWhile isBlankLine).reverse := rfl
    _ = (((normalizeLines b ls).dropWhile
          isBlankLine).reverse.dropWhile isBlankLine).reverse := by rw [h1]
    _ = ((normalizeLines b ls).reverse.dropWhile isBlankLine).reverse := by rw [h2]
    _ = ((normalizeLines b ls).reverse).reverse := by rw [h3]
    _ = normalizeLines b ls := by rw [List.reverse_reverse]

/-- C10 blank-line fact used to justify re-splitting: the normalized output
never ends in an empty line. -/
theorem normalizeLines_getLast?_ne_nil (b : Bool) (ls : List (List Char)) :
    (normalizeLines b ls).getLast? ≠ some ([] : List Char) := by
  intro h
  have := normalizeLines_getLast?_not_blank h
  simp [isBlankLine, stripChars, lstripChars, rstripChars] at this

theorem normalizeLines_no_nl (b : Bool) (s : String) :
    ∀ l ∈ normalizeLines b (pySplitlines s), ∀ c ∈ l, isNewlineChar c = false := by
  intro l hl c hc
  obtain ⟨a, ha, rfl, _⟩ := mem_of_mem_normalizeLines hl
  have hno := no_nl_of_mem_splitlinesChars s.data [] (by simp) a ha
  exact hno c (mem_rstrip hc)

/-! Embedding of `VBAParser._calculate_complexity`
(`packages/core/src/vba_mcp_core/lib/vba_parser.py`, lines 228-252). -/

/-- Decision keywords counted by the complexity scorer, in source order. -/
def decisionKeywords : List String :=
  ["If", "ElseIf", "For", "While", "Do", "Case", "And", "Or"]

/-- Number of matches of the regular expression `\bKW\b` (IGNORECASE) in a
text: the maximal word runs equal to the keyword up to ASCII case. -/
def countWholeWordCI (kw : String) (cs : List Char) : Nat :=
  ((wordRuns cs).filter fun r => lowerChars r == lowerChars kw.data).length

/-- The procedure span `"\n".join(code.splitlines()[start_line-1:end_line])`
used by the complexity scorer. -/
def procSpanChars (code : String) (startLine endLine : Nat) : List Char :=
  joinNl (((pySplitlines code).drop (startLine - 1)).take
    (endLine - (startLine - 1)))

/-- Embedding of `_calculate_complexity(code, start_line, end_line)`:
base 1 plus one per decision-keyword match in the span. -/
def calculateComplexity (code : String) (startLine endLine : Nat) : Nat :=
  decisionKeywords.foldl
    (fun acc kw => acc + countWholeWordCI kw (procSpanChars code startLine endLine)) 1

/-- Lower-cased decision keywords, for counting in one pass. -/
def loweredDecisionKeywords : List (List Char) :=
  decisionKeywords.map fun k => lowerChars k.data

/-- Count written against the specification wording for C3: every whole-word
decision keyword counts, except a `Case` whose next word is `Else`. -/
def specDecisionCount : List (List Char) → Nat
  | [] => 0
  | r :: rest =>
    (if loweredDecisionKeywords.contains (lowerChars r) &&
        !(lowerChars r == "case".data &&
          (match rest with
           | r2 :: _ => lowerChars r2 == "else".data
           | [] => false)) then 1 else 0) + specDecisionCount rest

/-- Complexity as the C3 claim words it: `Case Else` occurrences excluded. -/
def specComplexity (code : String) (startLine endLine : Nat) : Nat :=
  1 + specDecisionCount (wordRuns (procSpanChars code startLine endLine))

theorem foldl_add_shift {α : Type} (g : α → Nat) :
    ∀ (l : List α) (i : Nat), l.foldl (fun a kw => a + g kw) i = i + (l.map g).sum := by
  intro l
  induction l with
  | nil => intro i; simp
  | cons k l ih =>
    intro i
    simp only [List.foldl_cons, List.map_cons, List.sum_cons]
    rw [ih]
    omega

theorem countP_or_disjoint {α : Type} (p q : α → Bool)
    (h : ∀ x, ¬(p x = true ∧ q x = true)) :
    ∀ xs : List α, xs.countP (fun x => p x || q x) = xs.countP p + xs.countP q := by
  intro xs
  induction xs with
  | nil => simp
  | cons x xs ih =>
    rw [List.countP_cons, List.countP_cons, List.countP_cons, ih]
    by_cases hp : p x = true
    · have hq : q x = false := by
        cases hqx : q x
        · rfl
        · exact absurd ⟨hp, hqx⟩ (h x)
      simp [hp, hq]
      omega
    · have hp2 : p x = false := by simpa using hp
      simp [hp2]
      omega

theorem sum_counts_eq_countP_mem :
    ∀ kws : List (List Char), kws.Nodup → ∀ xs : List (List Char),
    (kws.map fun kw => xs.countP fun x => x == kw).sum =
      xs.countP fun x => kws.contains x := by
  intro kws
  induction kws with
  | nil =>
    intro _ xs
    simp [List.countP_eq_zero]
  | cons k kws ih =>
    intro hnd xs
    have hk : k ∉ kws := (List.nodup_cons.mp hnd).1
    have hkws : kws.Nodup := (List.nodup_cons.mp hnd).2
    simp only [List.map_cons, List.sum_cons]
    rw [ih hkws xs]
    have hdisj : ∀ x : List Char,
        ¬((x == k) = true ∧ kws.contains x = true) := by
      intro x ⟨h1, h2⟩
      have : x = k := by simpa using h1
      subst this
      exact hk (by simpa using h2)
    have := countP_or_disjoint (fun x => x == k) (fun x => kws.contains x) hdisj xs
    rw [← this]
    apply List.countP_congr
    intro x _
    simp [List.contains_cons]

/-- C3 (amended): the complexity score is exactly one plus the number of
whole-word decision-keyword occurrences in the span, with NO exclusion of
`Case Else` (each `Case` counts, whatever follows); hence the score is ≥ 1
and equals 1 when the span holds no decision keyword. -/
theorem complexity_eq_one_plus_keyword_count (code : String) (s e : Nat) :
    calculateComplexity code s e =
      1 + ((wordRuns (procSpanChars code s e)).countP fun r =>
        loweredDecisionKeywords.contains (lowerChars r)) ∧
    1 ≤ calculateComplexity code s e ∧
    (((wordRuns (procSpanChars code s e)).countP fun r =>
        loweredDecisionKeywords.contains (lowerChars r)) = 0 →
      calculateComplexity code s e = 1) := by
  have hmain : calculateComplexity code s e =
      1 + ((wordRuns (procSpanChars code s e)).countP fun r =>
        loweredDecisionKeywords.contains (lowerChars r)) := by
    unfold calculateComplexity
    rw [foldl_add_shift]
    congr 1
    have hstep : decisionKeywords.map
        (fun kw => countWholeWordCI kw (procSpanChars code s e)) =
        loweredDecisionKeywords.map
          (fun kw => ((wordRuns (procSpanChars code s e)).map lowerChars).countP
            fun x => x == kw) := by
      unfold loweredDecisionKeywords
      rw [List.map_map]
      apply List.map_congr_left
      intro kw _
      unfold countWholeWordCI
      rw [← List.countP_eq_length_filter, Function.comp_apply, List.countP_map]
      rfl
    rw [hstep, sum_counts_eq_countP_mem loweredDecisionKeywords (by decide),
      List.countP_map]
    rfl
  refine ⟨hmain, by omega, fun h => by omega⟩

/-- C3 counterexample: on the one-line span `Case Else` the code scores 2
(the `Case` is counted), while the claim with `Case Else` excluded gives 1. -/
theorem complexity_caseElse_counterexample :
    calculateComplexity "Case Else" 1 1 = 2 ∧
    specComplexity "Case Else" 1 1 = 1 ∧
    calculateComplexity "Case Else" 1 1 ≠ specComplexity "Case Else" 1 1 := by
  refine ⟨by decide, by decide, by decide⟩

/-- Witness for C3: a span with no decision keyword scores exactly 1. -/
theorem complexity_eq_one_plus_keyword_count_witness :
    calculateComplexity "x = MsgBox(1)" 1 1 = 1 := by
  exact (complexity_eq_one_plus_keyword_count "x = MsgBox(1)" 1 1).2.2 (by decide)

/-! Embedding of `VBAParser._find_end_statement`
(`packages/core/src/vba_mcp_core/lib/vba_parser.py`, lines 150-171). -/

/-- Match of the anchored regular expression `^\s*End\s+{t}\b` (IGNORECASE)
against a line, as `re.match` uses it in `_find_end_statement`. -/
def matchesEndPattern (t : String) (line : String) : Bool :=
  let cs1 := (lowerChars line.data).dropWhile isPySpace
  if "end".data.isPrefixOf cs1 then
    match cs1.drop 3 with
    | c :: rest =>
      if isPySpace c then
        let cs3 := rest.dropWhile isPySpace
        let lt := lowerChars t.data
        if lt.isPrefixOf cs3 then
          match cs3.drop lt.length with
          | [] => true
          | d :: _ => !isWordChar d
        else false
      else false
    | [] => false
  else false

/-- Scan of the loop body of `_find_end_statement` from line number `i`
over the remaining lines; `some i` is the first matching 1-based index. -/
def findEndAux (t : String) : List String → Nat → Option Nat
  | [], _ => none
  | line :: rest, i =>
    if matchesEndPattern t line then some i else findEndAux t rest (i + 1)

/-- Embedding of `_find_end_statement(lines, start_line, statement_type)`
for the call sites, which always pass a 1-based `start_line ≥ 1`. -/
def findEndStatement (lines : List String) (startLine : Nat) (t : String) : Nat :=
  match findEndAux t (lines.drop (startLine - 1)) startLine with
  | some i => i
  | none => lines.length

theorem findEndAux_some_bounds (t : String) :
    ∀ (ls : List String) (i j : Nat), findEndAux t ls i = some j →
      i ≤ j ∧ j < i + ls.length := by
  intro ls
  induction ls with
  | nil => intro i j h; simp [findEndAux] at h
  | cons line rest ih =>
    intro i j h
    rw [findEndAux] at h
    by_cases hm : matchesEndPattern t line = true
    · rw [if_pos hm] at h
      simp at h
      subst h
      simp
    · rw [if_neg hm] at h
      have := ih (i + 1) j h
      constructor
      · omega
      · simp only [List.length_cons]
        omega

theorem findEndAux_none_of_all_false (t : String) :
    ∀ (ls : List String) (i : Nat),
      (∀ k, k < ls.length → matchesEndPattern t (ls.getD k "") = false) →
      findEndAux t ls i = none := by
  intro ls
  induction ls with
  | nil => intro i _; rfl
  | cons line rest ih =>
    intro i h
    rw [findEndAux]
    rw [if_neg (by simpa using h 0 (by simp))]
    refine ih (i + 1) ?_
    intro k hk
    have := h (k + 1) (by simpa using Nat.succ_lt_succ hk)
    simpa using this

/-- C5: for a 1-based start line inside the module, the end line reported by
`_find_end_statement` is ≥ the start line and ≤ the number of lines, and
when no line from the start onward matches the closer pattern, the end line
is exactly the last line of the module. -/
theorem findEnd_start_le_and_default (lines : List String) (s : Nat) (t : String)
    (h1 : 1 ≤ s) (h2 : s ≤ lines.length) :
    s ≤ findEndStatement lines s t ∧
    findEndStatement lines s t ≤ lines.length ∧
    ((∀ i, s ≤ i → i ≤ lines.length →
        matchesEndPattern t (lines.getD (i - 1) "") = false) →
      findEndStatement lines s t = lines.length) := by
  cases hfe : findEndAux t (lines.drop (s - 1)) s with
  | none =>
    have hval : findEndStatement lines s t = lines.length := by
      unfold findEndStatement
      rw [hfe]
    rw [hval]
    exact ⟨h2, le_rfl, fun _ => rfl⟩
  | some j =>
    have hval : findEndStatement lines s t = j := by
      unfold findEndStatement
      rw [hfe]
    have hb := findEndAux_some_bounds t (lines.drop (s - 1)) s j hfe
    have hlen : (lines.drop (s - 1)).length = lines.length - (s - 1) := by
      simp
    rw [hval]
    refine ⟨hb.1, by omega, ?_⟩
    intro hall
    exfalso
    have hnone := findEndAux_none_of_all_false t (lines.drop (s - 1)) s ?_
    · rw [hnone] at hfe
      exact Option.noConfusion hfe
    · intro k hk
      have hgd : (lines.drop (s - 1)).getD k "" = lines.getD (s - 1 + k) "" := by
        simp [List.getD_eq_getElem?_getD, List.getElem?_drop]
      rw [hgd]
      have hik : (s + k) - 1 = s - 1 + k := by omega
      rw [← hik]
      refine hall (s + k) (by omega) ?_
      rw [hlen] at hk
      omega

/-- Witness for C5 at a concrete module: a `Sub` opened on line 1 with no
`End Sub` anywhere ends on the last line (line 2). -/
theorem findEnd_start_le_and_default_witness :
    1 ≤ findEndStatement ["Sub A()", "x = 1"] 1 "Sub" ∧
    findEndStatement ["Sub A()", "x = 1"] 1 "Sub" = 2 := by
  have h := findEnd_start_le_and_default ["Sub A()", "x = 1"] 1 "Sub"
    (by decide) (by decide)
  refine ⟨h.1, h.2.2 ?_⟩
  intro i hi1 hi2
  have hle : i ≤ 2 := by simpa using hi2
  have hor : i = 1 ∨ i = 2 := by omega
  rcases hor with rfl | rfl <;> decide

/-! Embedding of `VBAParser._extract_calls` and `VBAParser._is_vba_keyword`
(`packages/core/src/vba_mcp_core/lib/vba_parser.py`, lines 173-211). -/

/-- Keyword denylist of `_is_vba_keyword`, in source order. -/
def vbaKeywords : List String :=
  ["If", "Then", "Else", "ElseIf", "End", "For", "Next", "Do", "Loop",
   "While", "Wend", "Select", "Case", "With", "Exit", "Sub", "Function",
   "Property", "Public", "Private", "Dim", "ReDim", "Const", "Type",
   "Enum", "Class", "New", "Set", "Let", "Get", "Call", "Return"]

/-- Embedding of `_is_vba_keyword`: case-insensitive membership test. -/
def isVbaKeyword (word : String) : Bool :=
  vbaKeywords.any fun k => lowerChars k.data == lowerChars word.data

/-- Identifiers matched by `CALL_PATTERN = \b(\w+)\s*\(` that survive the
keyword filter, in match order with duplicates. -/
def callCandidates (code : String) : List String :=
  (wordRunsWithRest code.data []).filterMap fun p =>
    if (p.2.dropWhile isPySpace).head? == some '(' then
      if isVbaKeyword (String.mk p.1) then none else some (String.mk p.1)
    else none

/-- Code-point lexicographic comparison of character lists: the order Python
`sorted` uses on strings. -/
def charLe : List Char → List Char → Bool
  | [], _ => true
  | _ :: _, [] => false
  | a :: as, b :: bs =>
    if a.toNat = b.toNat then charLe as bs
    else decide (a.toNat < b.toNat)

/-- Code-point lexicographic comparison of strings. -/
def strLe (a b : String) : Bool := charLe a.data b.data

theorem charLe_total : ∀ x y : List Char, charLe x y = true ∨ charLe y x = true := by
  intro x
  induction x with
  | nil => intro y; left; rfl
  | cons a as ih =>
    intro y
    cases y with
    | nil => right; rfl
    | cons b bs =>
      by_cases hab : a.toNat = b.toNat
      · rcases ih bs with h | h
        · left; simp [charLe, hab, h]
        · right; simp [charLe, hab.symm, h]
      · by_cases hlt : a.toNat < b.toNat
        · left; simp [charLe, hab, hlt]
        · right
          have hba : b.toNat ≠ a.toNat := fun h => hab h.symm
          simp [charLe, hba]
          omega

theorem charLe_trans :
    ∀ x y z : List Char, charLe x y = true → charLe y z = true →
      charLe x z = true := by
  intro x
  induction x with
  | nil => intro y z _ _; rfl
  | cons a as ih =>
    intro y z hxy hyz
    cases y with
    | nil => simp [charLe] at hxy
    | cons b bs =>
      cases z with
      | nil => simp [charLe] at hyz
      | cons c cs =>
        by_cases hab : a.toNat = b.toNat
        · by_cases hbc : b.toNat = c.toNat
          · rw [charLe, if_pos hab] at hxy
            rw [charLe, if_pos hbc] at hyz
            rw [charLe, if_pos (hab.trans hbc)]
            exact ih bs cs hxy hyz
          · rw [charLe, if_neg hbc] at hyz
            simp only [decide_eq_true_eq] at hyz
            rw [charLe, if_neg (by omega)]
            simp only [decide_eq_true_eq]
            omega
        · rw [charLe, if_neg hab] at hxy
          simp only [decide_eq_true_eq] at hxy
          by_cases hbc : b.toNat = c.toNat
          · rw [charLe, if_neg (by omega)]
            simp only [decide_eq_true_eq]
            omega
          · rw [charLe, if_neg hbc] at hyz
            simp only [decide_eq_true_eq] at hyz
            rw [charLe, if_neg (by omega)]
            simp only [decide_eq_true_eq]
            omega

instance : IsTotal String fun a b => strLe a b = true :=
  ⟨fun a b => charLe_total a.data b.data⟩

instance : IsTrans String fun a b => strLe a b = true :=
  ⟨fun a b c => charLe_trans a.data b.data c.data⟩

/-- Embedding of `_extract_calls`: deduplicate (the Python `set`) and sort
ascending by code points.  Insertion sort is used as the executable model of
Python `sorted`; both are stable and agree on the resulting list. -/
def extractCalls (code : String) : List String :=
  List.insertionSort (fun a b => strLe a b = true) (callCandidates code).dedup

/-- Call targets as the C6 claim words them: the identifier must be
IMMEDIATELY followed by `(`, with no whitespace in between. -/
def specCallTargets (code : String) : List String :=
  ((wordRunsWithRest code.data []).filterMap fun p =>
    if p.2.head? == some '(' then
      if isVbaKeyword (String.mk p.1) then none else some (String.mk p.1)
    else none).dedup |> List.insertionSort (fun a b => strLe a b = true)

/-- C6 (amended): the reported call-target list holds exactly the
identifiers followed — possibly after whitespace, per the source pattern
`\b(\w+)\s*\(` — by `(` and not in the keyword denylist, without duplicates
and strictly sorted in ascending order; no reported target is a keyword. -/
theorem extractCalls_sorted_nodup_members (code : String) :
    (extractCalls code).Pairwise (fun a b => strLe a b = true ∧ a ≠ b) ∧
    (∀ x, x ∈ extractCalls code ↔ x ∈ callCandidates code) ∧
    (∀ x ∈ extractCalls code, isVbaKeyword x = false) := by
  have hperm : List.Perm (extractCalls code) (callCandidates code).dedup :=
    List.perm_insertionSort (fun a b => strLe a b = true) (callCandidates code).dedup
  have hmem : ∀ x, x ∈ extractCalls code ↔ x ∈ callCandidates code := by
    intro x
    rw [hperm.mem_iff, List.mem_dedup]
  have hsorted : (extractCalls code).Pairwise (fun a b => strLe a b = true) :=
    List.sorted_insertionSort (fun a b => strLe a b = true) (callCandidates code).dedup
  have hnodup : (extractCalls code).Nodup :=
    hperm.nodup_iff.mpr (List.nodup_dedup _)
  refine ⟨?_, hmem, ?_⟩
  · exact List.Pairwise.and hsorted hnodup
  · intro x hx
    rcases (hmem x).mp hx with hc
    unfold callCandidates at hc
    rw [List.mem_filterMap] at hc
    obtain ⟨p, _, hp⟩ := hc
    by_cases hpar : ((p.2.dropWhile isPySpace).head? == some '(') = true
    · rw [if_pos hpar] at hp
      by_cases hkw : isVbaKeyword (String.mk p.1) = true
      · rw [if_pos hkw] at hp
        simp at hp
      · rw [if_neg hkw] at hp
        simp at hp
        subst hp
        simpa using hkw
    · rw [if_neg hpar] at hp
      simp at hp

/-- Witness for C6 at a concrete snippet. -/
theorem extractCalls_sorted_nodup_members_witness :
    ("Foo" ∈ extractCalls "Foo ()" ↔ "Foo" ∈ callCandidates "Foo ()") ∧
    isVbaKeyword "Foo" = false := by
  have h := extractCalls_sorted_nodup_members "Foo ()"
  exact ⟨h.2.1 "Foo", h.2.2 "Foo" (by decide)⟩

/-- C6 counterexample: the source pattern `\b(\w+)\s*\(` lets whitespace
stand between the identifier and `(`, so `Foo ()` reports the call `Foo`
although `Foo` is not IMMEDIATELY followed by `(` as the claim demands. -/
theorem extractCalls_whitespace_counterexample :
    extractCalls "Foo ()" = ["Foo"] ∧ specCallTargets "Foo ()" = [] ∧
    extractCalls "Foo ()" ≠ specCallTargets "Foo ()" :=
  ⟨by decide, by decide, by decide⟩

/-! Embedding of `analyze_structure_tool` (`src/tools/analyze.py`,
lines 66-108): metrics, the quality assessment and the top-offenders view. -/

/-- Procedure facts the analyzer ranks. -/
structure ProcInfo where
  module : String
  name : String
  complexity : Nat
deriving DecidableEq

instance : IsTotal ProcInfo fun a b => b.complexity ≤ a.complexity :=
  ⟨fun a b => le_total b.complexity a.complexity⟩

instance : IsTrans ProcInfo fun a b => b.complexity ≤ a.complexity :=
  ⟨fun a b c hab hbc => le_trans hbc hab⟩

/-- Embedding of the top-offenders view
`sorted(all_procedures, key=complexity, reverse=True)[:10]`: the slice cap
is the literal 10 in the source.  Insertion sort models Python sorted
(both stable). -/
def topOffenders (procs : List ProcInfo) : List ProcInfo :=
  (List.insertionSort (fun a b => b.complexity ≤ a.complexity) procs).take 10

/-- Top-offenders view as the C7 claim words it: a configurable cap whose
default is 15. -/
def specTopOffenders (cap : Nat) (procs : List ProcInfo) : List ProcInfo :=
  (List.insertionSort (fun a b => b.complexity ≤ a.complexity) procs).take cap

/-- Mean complexity `sum(complexities)/len(complexities) if complexities
else 0`, in exact rational arithmetic. -/
def meanComplexity (cs : List Nat) : ℚ :=
  if cs.isEmpty then 0 else (cs.sum : ℚ) / (cs.length : ℚ)

/-- The three assessment lines emitted by `analyze_structure_tool`. -/
def goodAssessment : String := "✅ Code complexity is **good** - well structured"

/-- Assessment line for mean complexity in (5, 10]. -/
def moderateAssessment : String :=
  "⚠️ Code complexity is **moderate** - consider refactoring complex procedures"

/-- Assessment line for mean complexity above 10. -/
def highAssessment : String := "❌ Code complexity is **high** - refactoring recommended"

/-- Embedding of the `if avg_complexity <= 5 ... elif <= 10 ... else` chain. -/
def complexityAssessment (cs : List Nat) : String :=
  if meanComplexity cs ≤ 5 then goodAssessment
  else if meanComplexity cs ≤ 10 then moderateAssessment
  else highAssessment

/-- Example project with eleven procedures of distinct complexities. -/
def elevenProcs : List ProcInfo :=
  (List.range 11).map fun i => ProcInfo.mk "Mod" (toString i) (11 - i)

/-- C7 (amended): the top-offenders view is ordered by complexity
descending, drawn from the analyzed procedures, and limited to the
hardcoded cap 10; the quality label is the good line when mean complexity
≤ 5, the moderate line when 5 < mean ≤ 10, and the high line otherwise. -/
theorem analyze_top_offenders_and_quality (procs : List ProcInfo) :
    (topOffenders procs).Pairwise (fun a b => b.complexity ≤ a.complexity) ∧
    (topOffenders procs).length ≤ 10 ∧
    (∀ x ∈ topOffenders procs, x ∈ procs) ∧
    (meanComplexity (procs.map ProcInfo.complexity) ≤ 5 →
      complexityAssessment (procs.map ProcInfo.complexity) = goodAssessment) ∧
    (5 < meanComplexity (procs.map ProcInfo.complexity) →
      meanComplexity (procs.map ProcInfo.complexity) ≤ 10 →
      complexityAssessment (procs.map ProcInfo.complexity) = moderateAssessment) ∧
    (10 < meanComplexity (procs.map ProcInfo.complexity) →
      complexityAssessment (procs.map ProcInfo.complexity) = highAssessment) := by
  refine ⟨?_, ?_, ?_, ?_, ?_, ?_⟩
  · exact (List.sorted_insertionSort _ procs).sublist (List.take_sublist _ _)
  · exact List.length_take_le 10 _
  · intro x hx
    have hmem := (List.take_sublist 10 _).subset hx
    exact (List.perm_insertionSort (fun a b => b.complexity ≤ a.complexity)
      procs).subset hmem
  · intro h
    unfold complexityAssessment
    rw [if_pos h]
  · intro h5 h10
    unfold complexityAssessment
    rw [if_neg (by exact not_le.mpr h5), if_pos h10]
  · intro h10
    unfold complexityAssessment
    rw [if_neg (by
        intro hle
        exact absurd (le_trans hle (by norm_num)) (not_le.mpr h10)),
      if_neg (by exact not_le.mpr h10)]

/-- Witness for C7 on a single procedure of complexity 3. -/
theorem analyze_top_offenders_and_quality_witness :
    (topOffenders [ProcInfo.mk "M" "A" 3]).length ≤ 10 ∧
    complexityAssessment [3] = goodAssessment := by
  have h := analyze_top_offenders_and_quality [ProcInfo.mk "M" "A" 3]
  refine ⟨h.2.1, ?_⟩
  have := h.2.2.2.1 (by norm_num [meanComplexity])
  simpa using this

/-- C7 counterexample: the source slices the sorted procedures with the
literal `[:10]`, not a configurable cap of 15 — with eleven procedures the
view keeps 10, a cap of 15 would keep all 11. -/
theorem topOffenders_cap_counterexample :
    (topOffenders elevenProcs).length = 10 ∧
    (specTopOffenders 15 elevenProcs).length = 11 ∧
    topOffenders elevenProcs ≠ specTopOffenders 15 elevenProcs :=
  ⟨by decide, by decide, by decide⟩

/-! Embedding of `_restore_backup`
(`packages/pro/src/vba_mcp_pro/tools/backup.py`, lines 113-141).  The
filesystem around one container is modelled explicitly: the container file
bytes, the files of the sibling `.vba_backups` directory, and the parsed
manifest. -/

/-- One manifest record `{id, filename, created, original_size}`. -/
structure BackupEntry where
  id : String
  filename : String
  created : String
  originalSize : Nat
deriving DecidableEq

/-- Filesystem state seen by the backup manager. -/
structure BackupFS where
  container : Option (List Nat)
  backupFiles : List (String × List Nat)
  manifest : List BackupEntry
deriving DecidableEq

/-- Errors `_restore_backup` raises. -/
inductive BackupError where
  | notFoundInManifest (backupId : String)
  | backupFileMissing (filename : String)
deriving DecidableEq

/-- The `next((b for b in manifest["backups"] if b["id"] == backup_id), None)`
lookup: first manifest entry with the requested id. -/
def findBackupEntry (manifest : List BackupEntry) (backupId : String) :
    Option BackupEntry :=
  manifest.find? fun b => b.id == backupId

/-- Whether (and with which bytes) a file exists in the backup directory. -/
def lookupBackupFile (files : List (String × List Nat)) (name : String) :
    Option (List Nat) :=
  (files.find? fun p => p.1 == name).map Prod.snd

/-- Embedding of `_restore_backup(file_path, backup_id)`.  `safetyName` is
the timestamped `<stem>_pre_restore_<now><suffix>` name the source computes
from the current clock. -/
def restoreBackup (fs : BackupFS) (backupId safetyName : String) :
    BackupFS × Except BackupError Unit :=
  match findBackupEntry fs.manifest backupId with
  | none => (fs, Except.error (BackupError.notFoundInManifest backupId))
  | some e =>
    match lookupBackupFile fs.backupFiles e.filename with
    | none => (fs, Except.error (BackupError.backupFileMissing e.filename))
    | some bytes =>
      let files2 := match fs.container with
        | some cur => fs.backupFiles ++ [(safetyName, cur)]
        | none => fs.backupFiles
      ({ fs with backupFiles := files2, container := some bytes }, Except.ok ())

/-- C8: for every id listed in the manifest, restore either overwrites the
container with the named backup bytes — after copying the current file into
the backup directory when a current file exists — or, when the named backup
file is missing, reports a file-missing error and leaves the filesystem
untouched; it never succeeds without the backup file. -/
theorem restoreBackup_found_or_missing (fs : BackupFS) (bid sn : String)
    (e : BackupEntry) (hfind : findBackupEntry fs.manifest bid = some e) :
    (∀ bytes, lookupBackupFile fs.backupFiles e.filename = some bytes →
      (restoreBackup fs bid sn).2 = Except.ok () ∧
      (restoreBackup fs bid sn).1.container = some bytes ∧
      (∀ cur, fs.container = some cur →
        (sn, cur) ∈ (restoreBackup fs bid sn).1.backupFiles)) ∧
    (lookupBackupFile fs.backupFiles e.filename = none →
      (restoreBackup fs bid sn).2 =
        Except.error (BackupError.backupFileMissing e.filename) ∧
      (restoreBackup fs bid sn).1 = fs) := by
  constructor
  · intro bytes hbytes
    simp only [restoreBackup, hfind, hbytes]
    refine ⟨trivial, trivial, ?_⟩
    intro cur hcur
    rw [hcur]
    simp
  · intro hmiss
    simp only [restoreBackup, hfind, hmiss]
    exact ⟨trivial, trivial⟩

/-- Witness for C8 on a one-entry manifest whose backup file exists. -/
theorem restoreBackup_found_or_missing_witness :
    (restoreBackup
      (BackupFS.mk (some [7])
        [("f_backup_20240101_000000.xlsm", [1, 2])]
        [BackupEntry.mk "20240101_000000" "f_backup_20240101_000000.xlsm"
          "2024-01-01T00:00:00" 2])
      "20240101_000000" "f_pre_restore_x.xlsm").2 = Except.ok () := by
  have h := restoreBackup_found_or_missing
    (BackupFS.mk (some [7])
      [("f_backup_20240101_000000.xlsm", [1, 2])]
      [BackupEntry.mk "20240101_000000" "f_backup_20240101_000000.xlsm"
        "2024-01-01T00:00:00" 2])
    "20240101_000000" "f_pre_restore_x.xlsm"
    (BackupEntry.mk "20240101_000000" "f_backup_20240101_000000.xlsm"
      "2024-01-01T00:00:00" 2)
    (by decide)
  exact (h.1 [1, 2] (by decide)).1

/-! Embedding of `_is_action_query`
(`packages/pro/src/vba_mcp_pro/tools/office_automation.py`, lines 1476-1480). -/

/-- The `action_keywords` tuple, in source order. -/
def actionKeywords : List String :=
  ["DELETE", "UPDATE", "INSERT", "DROP", "ALTER", "CREATE", "TRUNCATE"]

/-- ASCII upper-casing, as Python `str.upper()` acts on ASCII text. -/
def upperChars (cs : List Char) : List Char := cs.map Char.toUpper

/-- Embedding of `_is_action_query`:
`sql.strip().upper().startswith(action_keywords)` — a PREFIX test. -/
def isActionQuery (sql : String) : Bool :=
  actionKeywords.any fun k => k.data.isPrefixOf (upperChars (stripChars sql.data))

/-- The starting keyword of a SQL text as the C9 claim reads it: the first
whitespace-delimited token after stripping leading whitespace, upper-cased. -/
def specFirstKeyword (sql : String) : List Char :=
  upperChars ((lstripChars sql.data).takeWhile fun c => !isPySpace c)

/-- Classifier as the C9 claim words it: the starting keyword itself must be
one of the action keywords. -/
def specIsActionQuery (sql : String) : Bool :=
  actionKeywords.any fun k => k.data == specFirstKeyword sql

/-- C9 (amended): the bridge classifies a SQL string as an action query
exactly when its stripped upper-cased text begins with one of DELETE,
UPDATE, INSERT, DROP, ALTER, CREATE, TRUNCATE as a PREFIX (not necessarily
as a whole word); every SQL whose first keyword is SELECT is classified as
selection. -/
theorem isActionQuery_prefix_and_select (sql : String) :
    (isActionQuery sql = true ↔ ∃ k ∈ actionKeywords,
      k.data.isPrefixOf (upperChars (stripChars sql.data)) = true) ∧
    (specFirstKeyword sql = "SELECT".data → isActionQuery sql = false) := by
  constructor
  · unfold isActionQuery
    rw [List.any_eq_true]
  · intro hsel
    unfold specFirstKeyword at hsel
    cases hl : lstripChars sql.data with
    | nil =>
      rw [hl] at hsel
      simp [upperChars] at hsel
    | cons c rest =>
      rw [hl] at hsel
      by_cases hsp : isPySpace c = true
      · rw [List.takeWhile_cons, if_neg (by simp [hsp])] at hsel
        simp [upperChars] at hsel
      · have hspf : isPySpace c = false := by simpa using hsp
        rw [List.takeWhile_cons, if_pos (by simp [hspf])] at hsel
        have hcS : Char.toUpper c = 'S' := by
          have := congrArg (fun l => l.head?) hsel
          simpa [upperChars] using this
        have hstrip : stripChars sql.data = c :: rstripChars rest := by
          unfold stripChars
          rw [show lstripChars sql.data = lstripChars sql.data from rfl]
          rw [hl]
          exact rstrip_cons_neg hspf rest
        have hup : upperChars (stripChars sql.data) =
            'S' :: upperChars (rstripChars rest) := by
          rw [hstrip]
          simp [upperChars, hcS]
        unfold isActionQuery
        rw [List.any_eq_false]
        intro k hk
        fin_cases hk <;> simp [hup, List.isPrefixOf]

/-- Witness for C9: a query whose first keyword is `select` is selection. -/
theorem isActionQuery_prefix_and_select_witness :
    isActionQuery "  select * from Clients" = false := by
  exact (isActionQuery_prefix_and_select "  select * from Clients").2 (by decide)

/-- C9 counterexample: `DROPOUT` starts with the prefix `DROP`, so the code
classifies it as an action query although its starting keyword `DROPOUT` is
not in the action list. -/
theorem isActionQuery_dropout_counterexample :
    isActionQuery "DROPOUT" = true ∧ specIsActionQuery "DROPOUT" = false ∧
    ¬(isActionQuery "DROPOUT" = true ↔ specIsActionQuery "DROPOUT" = true) :=
  ⟨by decide, by decide, by decide⟩

/-! Embedding of `OfficeSessionManager`
(`packages/pro/src/vba_mcp_pro/session_manager.py`).  The registry is the
`_sessions` dict keyed by the resolved path string; the COM liveness probe
and the exclusive-open lock probe are oracles passed per operation. -/

/-- A live host session; `path` is the resolved path it was opened for and
`sid` identifies the underlying COM instance for the liveness oracle. -/
structure Session where
  path : String
  sid : Nat
  readOnly : Bool
deriving DecidableEq

/-- The registry: the `_sessions` dict as an association list in insertion
order, plus a counter supplying fresh session identities. -/
structure Registry where
  sessions : List (String × Session)
  nextSid : Nat
deriving DecidableEq

/-- The manager starts with no sessions. -/
def emptyRegistry : Registry := Registry.mk [] 0

/-- Dict lookup `self._sessions[file_key]`. -/
def lookupSession (reg : Registry) (key : String) : Option Session :=
  (reg.sessions.find? fun p => p.1 == key).map Prod.snd

/-- Dict assignment `self._sessions[file_key] = session`: replace in place
when the key exists, append otherwise. -/
def setSession (l : List (String × Session)) (key : String) (s : Session) :
    List (String × Session) :=
  if l.any fun p => p.1 == key then
    l.map fun p => if p.1 == key then (key, s) else p
  else l ++ [(key, s)]

/-- Embedding of `_force_close_session`: close and delete the dict entry. -/
def forceCloseSession (reg : Registry) (key : String) : Registry :=
  { reg with sessions := reg.sessions.eraseP fun p => p.1 == key }

/-- The session `_create_session` builds for a path. -/
def mkSession (reg : Registry) (path : String) (readOnly : Bool) : Session :=
  Session.mk path reg.nextSid readOnly

/-- Errors `get_or_create_session` / `close_session` raise. -/
inductive SessionError where
  | lockedDeadSession (path : String)
  | lockedExternal (path : String)
  | noSession (path : String)
deriving DecidableEq

/-- The lock-probe-and-create part of `get_or_create_session` (from
`if self._check_file_lock(file_path):` on). -/
def sessionLockCheck (reg : Registry) (path : String) (readOnly : Bool)
    (alive : Session → Bool) (locked : Bool) :
    Registry × Except SessionError Session :=
  if locked then
    match lookupSession reg path with
    | some s =>
      if alive s then (reg, Except.ok s)
      else (reg, Except.error (SessionError.lockedDeadSession path))
    | none => (reg, Except.error (SessionError.lockedExternal path))
  else
    let fresh := mkSession reg path readOnly
    (Registry.mk (setSession reg.sessions path fresh) (reg.nextSid + 1),
      Except.ok fresh)

/-- Embedding of `get_or_create_session(file_path, read_only, force_new)`;
`path` is already resolved, `alive` is the COM liveness probe `is_alive`,
`locked` the result of `_check_file_lock`. -/
def getOrCreateSession (reg : Registry) (path : String)
    (readOnly forceNew : Bool) (alive : Session → Bool) (locked : Bool) :
    Registry × Except SessionError Session :=
  if forceNew then sessionLockCheck reg path readOnly alive locked
  else
    match lookupSession reg path with
    | some s =>
      if alive s then (reg, Except.ok s)
      else sessionLockCheck (forceCloseSession reg path) path readOnly alive locked
    | none => sessionLockCheck reg path readOnly alive locked

/-- Embedding of `close_session`. -/
def closeSession (reg : Registry) (path : String) :
    Registry × Except SessionError Unit :=
  match lookupSession reg path with
  | none => (reg, Except.error (SessionError.noSession path))
  | some _ =>
    ({ reg with sessions := reg.sessions.eraseP fun p => p.1 == path },
      Except.ok ())

/-- Embedding of the body of `_cleanup_stale_sessions`: drop every session
whose idle timeout expired (`stale`) or whose liveness probe fails. -/
def evictSessions (reg : Registry) (stale : Session → Bool)
    (alive : Session → Bool) : Registry :=
  { reg with sessions := reg.sessions.filter fun p => !stale p.2 && alive p.2 }

/-- One registry operation with its environment oracles. -/
inductive RegOp where
  | getOrCreate (path : String) (readOnly forceNew : Bool)
      (alive : Session → Bool) (locked : Bool)
  | close (path : String)
  | closeAll
  | evict (stale : Session → Bool) (alive : Session → Bool)

/-- Effect of one operation on the registry. -/
def applyOp (reg : Registry) : RegOp → Registry
  | RegOp.getOrCreate p ro fn alive locked =>
    (getOrCreateSession reg p ro fn alive locked).1
  | RegOp.close p => (closeSession reg p).1
  | RegOp.closeAll => { reg with sessions := [] }
  | RegOp.evict st al => evictSessions reg st al

/-- Registry after a sequence of operations from startup. -/
def runOps (ops : List RegOp) : Registry := ops.foldl applyOp emptyRegistry

/-- Registry well-formedness: dict keys are unique and every session is
registered under its own path. -/
def RegistryInv (reg : Registry) : Prop :=
  (reg.sessions.map Prod.fst).Nodup ∧ ∀ p ∈ reg.sessions, p.2.path = p.1

/-- Number of registered sessions whose path is `q`. -/
def pathCount (reg : Registry) (q : String) : Nat :=
  (reg.sessions.filter fun p => p.2.path == q).length

theorem setSession_inv {l : List (String × Session)}
    (hnd : (l.map Prod.fst).Nodup) (hmem : ∀ p ∈ l, p.2.path = p.1)
    {key : String} {s : Session} (hs : s.path = key) :
    ((setSession l key s).map Prod.fst).Nodup ∧
    ∀ p ∈ setSession l key s, p.2.path = p.1 := by
  unfold setSession
  by_cases hany : (l.any fun p => p.1 == key) = true
  · rw [if_pos hany]
    constructor
    · have hkeys : ((l.map fun p => if p.1 == key then (key, s) else p).map
          Prod.fst) = l.map Prod.fst := by
        rw [List.map_map]
        apply List.map_congr_left
        intro p _
        by_cases hpk : (p.1 == key) = true
        · have : p.1 = key := eq_of_beq hpk
          simp [Function.comp, hpk, this]
        · simp [Function.comp, hpk]
      rw [hkeys]
      exact hnd
    · intro p hp
      rw [List.mem_map] at hp
      obtain ⟨a, ha, hfa⟩ := hp
      by_cases hak : (a.1 == key) = true
      · rw [if_pos hak] at hfa
        rw [← hfa]
        exact hs
      · rw [if_neg hak] at hfa
        rw [← hfa]
        exact hmem a ha
  · rw [if_neg hany]
    have hnotin : key ∉ l.map Prod.fst := by
      intro hk
      rw [List.mem_map] at hk
      obtain ⟨a, ha, hfa⟩ := hk
      have hany2 : (l.any fun p => p.1 == key) = false :=
        Bool.eq_false_iff.mpr hany
      exact List.any_eq_false.mp hany2 a ha (by simp [hfa])
    constructor
    · rw [List.map_append]
      show (l.map Prod.fst ++ [key]).Nodup
      have hperm : List.Perm (l.map Prod.fst ++ [key]) (key :: l.map Prod.fst) :=
        List.perm_append_singleton key (l.map Prod.fst)
      rw [hperm.nodup_iff, List.nodup_cons]
      exact ⟨hnotin, hnd⟩
    · intro p hp
      rw [List.mem_append] at hp
      rcases hp with hp | hp
      · exact hmem p hp
      · simp at hp
        rw [hp]
        exact hs

theorem eraseP_key_inv {l : List (String × Session)}
    (hnd : (l.map Prod.fst).Nodup) (hmem : ∀ p ∈ l, p.2.path = p.1)
    (key : String) :
    (((l.eraseP fun p => p.1 == key).map Prod.fst).Nodup ∧
      ∀ p ∈ l.eraseP (fun p => p.1 == key), p.2.path = p.1) ∧
    ∀ p ∈ l.eraseP (fun p => p.1 == key), p.1 ≠ key := by
  have hsub : List.Sublist (l.eraseP fun p => p.1 == key) l :=
    List.eraseP_sublist l
  refine ⟨⟨(hsub.map Prod.fst).nodup hnd, fun p hp => hmem p (hsub.subset hp)⟩, ?_⟩
  clear hsub
  induction l with
  | nil => intro p hp; simp [List.eraseP] at hp
  | cons a l ih =>
    intro p hp
    rw [List.eraseP_cons] at hp
    cases hak : (a.1 == key) with
    | true =>
      rw [hak] at hp
      simp only [cond_true] at hp
      have hkey : a.1 = key := eq_of_beq hak
      rw [List.map_cons, List.nodup_cons] at hnd
      intro hpk
      refine hnd.1 ?_
      rw [hkey, ← hpk]
      exact List.mem_map_of_mem Prod.fst hp
    | false =>
      rw [hak] at hp
      simp only [cond_false] at hp
      rcases List.mem_cons.mp hp with hp | hp
      · rw [hp]
        intro hpk
        rw [hpk] at hak
        simp at hak
      · rw [List.map_cons, List.nodup_cons] at hnd
        exact ih hnd.2 (fun x hx => hmem x (List.mem_cons_of_mem a hx)) p hp

theorem sessionLockCheck_inv {reg : Registry} (hinv : RegistryInv reg)
    (path : String) (ro : Bool) (alive : Session → Bool) (locked : Bool) :
    RegistryInv (sessionLockCheck reg path ro alive locked).1 := by
  unfold sessionLockCheck
  by_cases hl : locked = true
  · rw [if_pos hl]
    cases lookupSession reg path with
    | none => exact hinv
    | some s =>
      dsimp only
      by_cases ha : alive s = true
      · rw [if_pos ha]; exact hinv
      · rw [if_neg ha]; exact hinv
  · rw [if_neg hl]
    exact setSession_inv hinv.1 hinv.2 rfl

theorem forceCloseSession_inv {reg : Registry} (hinv : RegistryInv reg)
    (key : String) : RegistryInv (forceCloseSession reg key) :=
  (eraseP_key_inv hinv.1 hinv.2 key).1

theorem getOrCreateSession_inv {reg : Registry} (hinv : RegistryInv reg)
    (path : String) (ro fn : Bool) (alive : Session → Bool) (locked : Bool) :
    RegistryInv (getOrCreateSession reg path ro fn alive locked).1 := by
  unfold getOrCreateSession
  by_cases hfn : fn = true
  · rw [if_pos hfn]
    exact sessionLockCheck_inv hinv path ro alive locked
  · rw [if_neg hfn]
    cases lookupSession reg path with
    | none => exact sessionLockCheck_inv hinv path ro alive locked
    | some s =>
      dsimp only
      by_cases ha : alive s = true
      · rw [if_pos ha]; exact hinv
      · rw [if_neg ha]
        exact sessionLockCheck_inv (forceCloseSession_inv hinv path)
          path ro alive locked

theorem applyOp_inv {reg : Registry} (hinv : RegistryInv reg) (op : RegOp) :
    RegistryInv (applyOp reg op) := by
  cases op with
  | getOrCreate p ro fn alive locked =>
    exact getOrCreateSession_inv hinv p ro fn alive locked
  | close p =>
    show RegistryInv (closeSession reg p).1
    unfold closeSession
    cases lookupSession reg p with
    | none => exact hinv
    | some s =>
      dsimp only
      exact (eraseP_key_inv hinv.1 hinv.2 p).1
  | closeAll =>
    show RegistryInv (Registry.mk [] reg.nextSid)
    exact ⟨by simp, by simp⟩
  | evict st al =>
    show RegistryInv (evictSessions reg st al)
    unfold evictSessions
    have hsub : List.Sublist (reg.sessions.filter fun p => !st p.2 && al p.2)
        reg.sessions := List.filter_sublist reg.sessions
    exact ⟨(hsub.map Prod.fst).nodup hinv.1, fun p hp => hinv.2 p (hsub.subset hp)⟩

theorem runOps_inv (ops : List RegOp) : RegistryInv (runOps ops) := by
  unfold runOps
  have h : ∀ (l : List RegOp) (reg : Registry), RegistryInv reg →
      RegistryInv (l.foldl applyOp reg) := by
    intro l
    induction l with
    | nil => intro reg h; exact h
    | cons op l ih => intro reg h; exact ih _ (applyOp_inv h op)
  exact h ops emptyRegistry ⟨by simp [emptyRegistry], by simp [emptyRegistry]⟩

theorem filter_key_length_le_one {l : List (String × Session)}
    (hnd : (l.map Prod.fst).Nodup) (q : String) :
    (l.filter fun p => p.1 == q).length ≤ 1 := by
  induction l with
  | nil => simp
  | cons a l ih =>
    rw [List.map_cons, List.nodup_cons] at hnd
    by_cases hak : (a.1 == q) = true
    · rw [List.filter_cons, if_pos hak]
      have hnone : (l.filter fun p => p.1 == q) = [] := by
        rw [List.filter_eq_nil_iff]
        intro p hp hpq
        have haq : a.1 = q := eq_of_beq hak
        have hpq2 : p.1 = q := eq_of_beq hpq
        refine hnd.1 ?_
        rw [haq, ← hpq2]
        exact List.mem_map_of_mem Prod.fst hp
      rw [hnone]
      simp
    · rw [List.filter_cons, if_neg hak]
      exact ih hnd.2

theorem pathCount_le_one_of_inv {reg : Registry} (hinv : RegistryInv reg)
    (q : String) : pathCount reg q ≤ 1 := by
  unfold pathCount
  have hcongr : (reg.sessions.filter fun p => p.2.path == q) =
      reg.sessions.filter fun p => p.1 == q := by
    apply List.filter_congr
    intro p hp
    rw [hinv.2 p hp]
  rw [hcongr]
  exact filter_key_length_le_one hinv.1 q

theorem lookup_forceClose_none {reg : Registry} (hinv : RegistryInv reg)
    (path : String) :
    lookupSession (forceCloseSession reg path) path = none := by
  unfold lookupSession forceCloseSession
  have hfind : List.find? (fun p => p.1 == path)
      (reg.sessions.eraseP fun p => p.1 == path) = none := by
    rw [List.find?_eq_none]
    intro p hp
    have := (eraseP_key_inv hinv.1 hinv.2 path).2 p hp
    simpa using this
  rw [hfind]
  rfl

/-- C4: after any sequence of get-or-create, close, close-all and eviction
operations, at most one registered session exists for each path; and when
get-or-create meets an existing entry that fails the liveness probe, that
entry is removed through `_force_close_session` — the intermediate registry
has no session at the path — before the replacement session is created into
the removed state. -/
theorem session_registry_unique_and_dead_removed (ops : List RegOp) (q : String) :
    pathCount (runOps ops) q ≤ 1 ∧
    (∀ (path : String) (ro : Bool) (alive : Session → Bool) (s : Session),
      lookupSession (runOps ops) path = some s → alive s = false →
      lookupSession (forceCloseSession (runOps ops) path) path = none ∧
      getOrCreateSession (runOps ops) path ro false alive false =
        (Registry.mk
          (setSession (forceCloseSession (runOps ops) path).sessions path
            (mkSession (forceCloseSession (runOps ops) path) path ro))
          ((forceCloseSession (runOps ops) path).nextSid + 1),
         Except.ok (mkSession (forceCloseSession (runOps ops) path) path ro))) := by
  have hinv := runOps_inv ops
  refine ⟨pathCount_le_one_of_inv hinv q, ?_⟩
  intro path ro alive s hls hdead
  refine ⟨lookup_forceClose_none hinv path, ?_⟩
  unfold getOrCreateSession
  rw [if_neg (by simp), hls]
  dsimp only
  rw [if_neg (by simp [hdead])]
  unfold sessionLockCheck
  rw [if_neg (by simp)]

/-- Witness for C4: one dead session created then probed dead. -/
theorem session_registry_unique_and_dead_removed_witness :
    pathCount (runOps [RegOp.getOrCreate "/tmp/a.xlsm" false false
        (fun _ => false) false]) "/tmp/a.xlsm" ≤ 1 ∧
    lookupSession (forceCloseSession
        (runOps [RegOp.getOrCreate "/tmp/a.xlsm" false false
          (fun _ => false) false]) "/tmp/a.xlsm") "/tmp/a.xlsm" = none := by
  have h := session_registry_unique_and_dead_removed
    [RegOp.getOrCreate "/tmp/a.xlsm" false false (fun _ => false) false]
    "/tmp/a.xlsm"
  refine ⟨h.1, ?_⟩
  have h2 := h.2 "/tmp/a.xlsm" false (fun _ => false)
    (Session.mk "/tmp/a.xlsm" 0 false) (by decide) (by decide)
  exact h2.1

/-! Embedding of `_check_vba_syntax`
(`packages/pro/src/vba_mcp_pro/tools/inject.py`, lines 200-338): the
block-balance check run on the injected code inside `_compile_vba_module`. -/

/-- The eight block kinds whose nesting the check tracks. -/
inductive BlockKind where
  | kIf | kFor | kWhile | kDo | kWith | kSelect | kSub | kFunction
deriving DecidableEq

/-- What one preprocessed line does to the counters. -/
inductive LineEffect where
  | noEffect
  | openBlock (k : BlockKind)
  | closeBlock (k : BlockKind)
deriving DecidableEq

/-- Per-line preprocessing of the check: strip, skip blank and comment
lines (`'` or `Rem `), and cut an inline comment at the first `'`. -/
def preprocessLine (line : List Char) : Option (List Char) :=
  let stripped := stripChars line
  if stripped.isEmpty then none
  else if stripped.head? == some aposChar then none
  else if "Rem ".data.isPrefixOf stripped then none
  else if stripped.contains aposChar then
    some (stripChars (beforeFirst [aposChar] stripped))
  else some stripped

/-- The `after_then` computation of the multi-line-`If` test: text after the
first ` Then`, stripped, with any inline comment cut again. -/
def afterThenPart (t : List Char) : List Char :=
  let a := stripChars (afterFirst " Then".data t)
  if a.contains aposChar then stripChars (beforeFirst [aposChar] a) else a

/-- The `elif` classification chain of `_check_vba_syntax`, in source
order.  A branch that is taken but changes no counter (single-line `If`,
`ElseIf`, `Else`) is `noEffect` — and stops the chain, as in the source. -/
def lineEffect (t : List Char) : LineEffect :=
  if "If ".data.isPrefixOf t && infixCheck " Then".data t &&
      !(" _".data.isSuffixOf t) then
    (if afterThenPart t = [] || afterThenPart t = ":".data then
      LineEffect.openBlock BlockKind.kIf
    else LineEffect.noEffect)
  else if "ElseIf ".data.isPrefixOf t && infixCheck " Then".data t then
    LineEffect.noEffect
  else if "Else".data.isPrefixOf t && !("ElseIf".data.isPrefixOf t) then
    LineEffect.noEffect
  else if "End If".data.isPrefixOf t || t = "End If".data then
    LineEffect.closeBlock BlockKind.kIf
  else if "For ".data.isPrefixOf t then LineEffect.openBlock BlockKind.kFor
  else if "Next".data.isPrefixOf t then LineEffect.closeBlock BlockKind.kFor
  else if "While ".data.isPrefixOf t then LineEffect.openBlock BlockKind.kWhile
  else if "Wend".data.isPrefixOf t then LineEffect.closeBlock BlockKind.kWhile
  else if "Do".data.isPrefixOf t &&
      (t = "Do".data || "Do While".data.isPrefixOf t ||
        "Do Until".data.isPrefixOf t) then
    LineEffect.openBlock BlockKind.kDo
  else if "Loop".data.isPrefixOf t then LineEffect.closeBlock BlockKind.kDo
  else if "With ".data.isPrefixOf t then LineEffect.openBlock BlockKind.kWith
  else if "End With".data.isPrefixOf t then LineEffect.closeBlock BlockKind.kWith
  else if "Select Case ".data.isPrefixOf t then
    LineEffect.openBlock BlockKind.kSelect
  else if "End Select".data.isPrefixOf t then
    LineEffect.closeBlock BlockKind.kSelect
  else if "Sub ".data.isPrefixOf t || "Public Sub ".data.isPrefixOf t ||
      "Private Sub ".data.isPrefixOf t then
    LineEffect.openBlock BlockKind.kSub
  else if "End Sub".data.isPrefixOf t then LineEffect.closeBlock BlockKind.kSub
  else if "Function ".data.isPrefixOf t ||
      "Public Function ".data.isPrefixOf t ||
      "Private Function ".data.isPrefixOf t then
    LineEffect.openBlock BlockKind.kFunction
  else if "End Function".data.isPrefixOf t then
    LineEffect.closeBlock BlockKind.kFunction
  else LineEffect.noEffect

/-- The eight nesting counters (`if_count` … `function_count`). -/
structure BlockCounters where
  cIf : Int
  cFor : Int
  cWhile : Int
  cDo : Int
  cWith : Int
  cSelect : Int
  cSub : Int
  cFunction : Int
deriving DecidableEq

/-- All counters zero, as at the start of the scan. -/
def zeroCounters : BlockCounters := BlockCounters.mk 0 0 0 0 0 0 0 0

/-- Read one counter. -/
def BlockCounters.get (c : BlockCounters) : BlockKind → Int
  | BlockKind.kIf => c.cIf
  | BlockKind.kFor => c.cFor
  | BlockKind.kWhile => c.cWhile
  | BlockKind.kDo => c.cDo
  | BlockKind.kWith => c.cWith
  | BlockKind.kSelect => c.cSelect
  | BlockKind.kSub => c.cSub
  | BlockKind.kFunction => c.cFunction

/-- Add to one counter. -/
def BlockCounters.add (c : BlockCounters) (k : BlockKind) (d : Int) :
    BlockCounters :=
  match k with
  | BlockKind.kIf => { c with cIf := c.cIf + d }
  | BlockKind.kFor => { c with cFor := c.cFor + d }
  | BlockKind.kWhile => { c with cWhile := c.cWhile + d }
  | BlockKind.kDo => { c with cDo := c.cDo + d }
  | BlockKind.kWith => { c with cWith := c.cWith + d }
  | BlockKind.kSelect => { c with cSelect := c.cSelect + d }
  | BlockKind.kSub => { c with cSub := c.cSub + d }
  | BlockKind.kFunction => { c with cFunction := c.cFunction + d }

/-- The scan loop of `_check_vba_syntax`: an early error reports the line
number and kind of a closer without opener. -/
def scanBlocks : List (List Char) → Nat → BlockCounters →
    Except (Nat × BlockKind) BlockCounters
  | [], _, c => Except.ok c
  | line :: rest, n, c =>
    match preprocessLine line with
    | none => scanBlocks rest (n + 1) c
    | some t =>
      match lineEffect t with
      | LineEffect.noEffect => scanBlocks rest (n + 1) c
      | LineEffect.openBlock k => scanBlocks rest (n + 1) (c.add k 1)
      | LineEffect.closeBlock k =>
        let c2 := c.add k (-1)
        if c2.get k < 0 then Except.error (n, k)
        else scanBlocks rest (n + 1) c2

/-- Opener name used in the error messages. -/
def openerName : BlockKind → String
  | BlockKind.kIf => "If"
  | BlockKind.kFor => "For"
  | BlockKind.kWhile => "While"
  | BlockKind.kDo => "Do"
  | BlockKind.kWith => "With"
  | BlockKind.kSelect => "Select Case"
  | BlockKind.kSub => "Sub"
  | BlockKind.kFunction => "Function"

/-- Closer name used in the error messages. -/
def closerName : BlockKind → String
  | BlockKind.kIf => "End If"
  | BlockKind.kFor => "Next"
  | BlockKind.kWhile => "Wend"
  | BlockKind.kDo => "Loop"
  | BlockKind.kWith => "End With"
  | BlockKind.kSelect => "End Select"
  | BlockKind.kSub => "End Sub"
  | BlockKind.kFunction => "End Function"

/-- Noun used in the unclosed-block messages. -/
def blockNoun : BlockKind → String
  | BlockKind.kIf => "block(s)"
  | BlockKind.kFor => "loop(s)"
  | BlockKind.kWhile => "loop(s)"
  | BlockKind.kDo => "loop(s)"
  | BlockKind.kWith => "block(s)"
  | BlockKind.kSelect => "block(s)"
  | BlockKind.kSub => "procedure(s)"
  | BlockKind.kFunction => "procedure(s)"

/-- Wrap a name in the single quotes the messages use. -/
def quoted (s : String) : String := apos ++ s ++ apos

/-- Join with a separator (`sep.join(parts)`). -/
def joinWith (sep : String) : List String → String
  | [] => ""
  | [x] => x
  | x :: y :: rest => x ++ sep ++ joinWith sep (y :: rest)

/-- Early-error message, e.g. `Line 3: 'End If' without matching 'If'`. -/
def lineErrorMessage (n : Nat) (k : BlockKind) : String :=
  "Line " ++ toString n ++ ": " ++ quoted (closerName k) ++
    " without matching " ++ quoted (openerName k)

/-- One unclosed-block item, e.g. `2 unclosed 'If' block(s) - missing 'End If'`. -/
def unclosedItem (k : BlockKind) (n : Nat) : String :=
  toString n ++ " unclosed " ++ quoted (openerName k) ++ " " ++ blockNoun k ++
    " - missing " ++ quoted (closerName k)

/-- The error-collection order of the source. -/
def kindOrder : List BlockKind :=
  [BlockKind.kIf, BlockKind.kFor, BlockKind.kWhile, BlockKind.kDo,
   BlockKind.kWith, BlockKind.kSelect, BlockKind.kSub, BlockKind.kFunction]

/-- The unclosed-block items for the final counters. -/
def unclosedItems (c : BlockCounters) : List String :=
  kindOrder.filterMap fun k =>
    if 0 < c.get k then some (unclosedItem k (c.get k).toNat) else none

/-- Embedding of `_check_vba_syntax(code)`: `none` when the check passes,
`some message` when it rejects. -/
def vbaSyntaxCheck (code : String) : Option String :=
  match scanBlocks (pySplitlines code) 1 zeroCounters with
  | Except.error e => some (lineErrorMessage e.1 e.2)
  | Except.ok c =>
    if (unclosedItems c).isEmpty then none
    else some ("VBA Syntax Error:\n  " ++ joinWith "\n  " (unclosedItems c))

/-- Lines of the code that the check classifies as opening block kind `k`. -/
def openerCount (k : BlockKind) (code : String) : Nat :=
  (((pySplitlines code).filterMap preprocessLine).filter
    fun t => lineEffect t == LineEffect.openBlock k).length

/-- Lines of the code that the check classifies as closing block kind `k`. -/
def closerCount (k : BlockKind) (code : String) : Nat :=
  (((pySplitlines code).filterMap preprocessLine).filter
    fun t => lineEffect t == LineEffect.closeBlock k).length

/-! Embedding of `_detect_non_ascii`, `_suggest_ascii_replacement` and the
edit pipeline `inject_vba_tool` / `_inject_vba_via_session`
(`packages/pro/src/vba_mcp_pro/tools/inject.py`). -/

/-- The scan of `_detect_non_ascii`: every character with codepoint > 127,
with its index and 1-based line number (`code[:i].count(newline) + 1`). -/
def nonAsciiAux : List Char → Nat → Nat → List (Char × Nat × Nat)
  | [], _, _ => []
  | c :: rest, idx, line =>
    (if 127 < c.toNat then [(c, idx, line)] else []) ++
      nonAsciiAux rest (idx + 1) (if c == '\n' then line + 1 else line)

/-- Offending characters of a code string, in order of occurrence. -/
def nonAsciiOccurrences (code : String) : List (Char × Nat × Nat) :=
  nonAsciiAux code.data 0 1

/-- Python `repr` of one printable character that is not a quote. -/
def pyReprChar (c : Char) : String := apos ++ String.mk [c] ++ apos

/-- Python `repr` of a short printable string, choosing double quotes when
the string holds an apostrophe (escape sequences are not modelled; every
replacement value is escape-free). -/
def pyReprStr (s : String) : String :=
  if s.data.contains aposChar then "\"" ++ s ++ "\"" else apos ++ s ++ apos

/-- The `Found N non-ASCII character(s)` clause. -/
def foundClause (n : Nat) : String :=
  "Found " ++ toString n ++ " non-ASCII character(s)"

/-- The `First occurrence at line L` clause. -/
def firstLineClause (l : Nat) : String :=
  "First occurrence at line " ++ toString l

/-- The canned replacement table of the message.  The seventh line reads
`   → " "` because the source writes two adjacent string literals there
(the intended curly quotes were lost), which Python concatenates. -/
def commonReplacementsTable : String :=
  "  ✓ → [OK] or (check)\n" ++
  "  ✗ → [ERROR] or (x)\n" ++
  "  → → ->\n" ++
  "  ➤ → >>\n" ++
  "  • → *\n" ++
  "  — → -\n" ++
  "   → \" \"\n" ++
  "  " ++ apos ++ " " ++ apos ++ " → " ++ apos ++ " " ++ apos ++ "\n" ++
  "  … → ...\n\n"

/-- Distinct offending characters (the Python `set`; its iteration order is
unspecified, this model fixes one order). -/
def uniqueNonAsciiChars (occs : List (Char × Nat × Nat)) : List Char :=
  (occs.map fun o => o.1).dedup

/-- The message `_detect_non_ascii` builds for a non-empty occurrence
list whose first occurrence is on `firstLine`. -/
def nonAsciiMessage (occs : List (Char × Nat × Nat)) (firstLine : Nat) : String :=
  "VBA only supports ASCII characters.\n\n" ++
  foundClause occs.length ++ ": " ++
  joinWith ", " ((uniqueNonAsciiChars occs).map pyReprChar) ++
  "\n\nCommon replacements:\n" ++ commonReplacementsTable ++
  firstLineClause firstLine

/-- Embedding of `_detect_non_ascii(code)`: `some message` when an
offending character exists. -/
def detectNonAscii (code : String) : Option String :=
  match nonAsciiOccurrences code with
  | [] => none
  | o :: rest => some (nonAsciiMessage (o :: rest) o.2.2)

/-- Non-overlapping substring count (`str.count`), fuelled structurally so
it evaluates inside the kernel; the fuel `cs.length` is always enough for a
non-empty pattern. -/
def countOccAux (pat : List Char) : Nat → List Char → Nat
  | 0, _ => 0
  | _ + 1, [] => 0
  | fuel + 1, c :: rest =>
    if pat.isPrefixOf (c :: rest) then
      1 + countOccAux pat fuel ((c :: rest).drop pat.length)
    else countOccAux pat fuel rest

/-- Python `hay.count(pat)` for non-empty `pat`. -/
def countOccurrences (pat cs : List Char) : Nat := countOccAux pat cs.length cs

/-- Non-overlapping left-to-right replacement (`str.replace`), fuelled like
`countOccAux`. -/
def replaceAllAux (pat repl : List Char) : Nat → List Char → List Char
  | 0, cs => cs
  | _ + 1, [] => []
  | fuel + 1, c :: rest =>
    if pat.isPrefixOf (c :: rest) then
      repl ++ replaceAllAux pat repl fuel ((c :: rest).drop pat.length)
    else c :: replaceAllAux pat repl fuel rest

/-- Python `hay.replace(pat, repl)` for non-empty `pat`. -/
def replaceAll (pat repl cs : List Char) : List Char :=
  replaceAllAux pat repl cs.length cs

/-- The `replacements` dict of `_suggest_ascii_replacement`, in insertion
order.  The ninth key is the accidental multi-character sequence
`: "'",\n        ` that Python parses out of the mangled quote lines, and
the double-quote key appears twice in the source (the second overwrites the
first with the same value). -/
def replacementPairs : List (String × String) :=
  [("✓", "[OK]"), ("✗", "[ERROR]"), ("→", "->"), ("➤", ">>"), ("•", "*"),
   ("—", "-"), ("–", "-"), ("\"", "\""),
   (": \"" ++ apos ++ "\",\n        ", apos), ("…", "..."), ("×", "x"),
   ("÷", "/"), ("≤", "<="), ("≥", ">="), ("≠", "<>")]

/-- One step of the replacement fold: apply a pair to the running
`(suggested, changes)` state. -/
def suggestStep (st : List Char × List String) (p : String × String) :
    List Char × List String :=
  if infixCheck p.1.data st.1 then
    (replaceAll p.1.data p.2.data st.1,
      st.2 ++ ["  " ++ pyReprStr p.1 ++ " → " ++ pyReprStr p.2 ++ " (" ++
        toString (countOccurrences p.1.data st.1) ++ " occurrence(s))"])
  else st

/-- Embedding of `_suggest_ascii_replacement(code)`. -/
def suggestAsciiReplacement (code : String) : String × String :=
  let st := replacementPairs.foldl suggestStep (code.data, [])
  if st.2.isEmpty then
    (String.mk st.1, "No common Unicode characters found to replace automatically.")
  else (String.mk st.1, "Suggested replacements:\n" ++ joinWith "\n" st.2)

/-- The `ValueError` text `inject_vba_tool` raises on non-ASCII input. -/
def injectNonAsciiMessage (code : String) : String :=
  "Invalid VBA Code - Non-ASCII Characters Detected\n\n" ++
  (match detectNonAscii code with
   | some m => m
   | none => "") ++
  "\n\n" ++ (suggestAsciiReplacement code).2 ++
  "\n\nPlease replace these characters with ASCII equivalents and try again."

/-- State of one container during an injection: the bytes on disk, the live
VB project of the open session (module name and code), and the sibling
backup directory. -/
structure InjectState where
  disk : List Nat
  modules : List (String × String)
  backupDir : List (String × List Nat)
deriving DecidableEq

/-- Result record of a successful injection. -/
structure InjectResult where
  action : String
  validated : Bool
  verified : Bool
deriving DecidableEq

/-- Errors of the pipeline.  `wrapped` is the `RuntimeError` re-raise of
`inject_vba_tool` that names the backup when one was created. -/
inductive InjectError where
  | nonAscii (msg : String)
  | validation (msg : String)
  | verification (msg : String)
  | wrapped (inner : InjectError) (backupName : String)
deriving DecidableEq

/-- `component.Name == module_name` lookup over `VBComponents`. -/
def findModule (modules : List (String × String)) (name : String) :
    Option String :=
  (modules.find? fun p => p.1 == name).map Prod.snd

/-- Replace the body of the first component with the given name. -/
def setModule : List (String × String) → String → String →
    List (String × String)
  | [], _, _ => []
  | (k, v) :: rest, n, c =>
    if k == n then (k, c) :: rest else (k, v) :: setModule rest n c

/-- `VBComponents.Remove` of the first component with the given name. -/
def removeModule (modules : List (String × String)) (name : String) :
    List (String × String) :=
  modules.eraseP fun p => p.1 == name

/-- The `ValueError` text of the rollback branch of
`_inject_vba_via_session`. -/
def validationFailedMessage (compileError : String) (hadOld : Bool) : String :=
  "VBA Code Validation Failed\n\n" ++ compileError ++
  "\n\nCode was NOT injected. File unchanged.\n" ++
  (if hadOld then "Old code restored." else "Module not created.")

/-- Verification failure reported when the saved module reads back empty. -/
def verificationEmptyMessage : String := "Module exists but is empty"

/-- Restore the container bytes from the backup copy, as the error paths
do with `shutil.copy2(backup_path, session.file_path)`. -/
def restoreFromBackup (st : InjectState)
    (backup : Option (String × List Nat)) : InjectState :=
  match backup with
  | some b => { st with disk := b.2 }
  | none => st

/-- Wrap an error in the `RuntimeError` of `inject_vba_tool` when a backup
was created, as `raise RuntimeError(...) from e` does. -/
def wrapIfBackup (e : InjectError) (backup : Option (String × List Nat)) :
    Except InjectError InjectResult :=
  match backup with
  | some b => Except.error (InjectError.wrapped e b.1)
  | none => Except.error e

/-- Embedding of `inject_vba_tool` composed with `_inject_vba_via_session`
for a non-database (Excel-family) session.  `serialize` is the host's
opaque save of the live project to container bytes; `backupName` the
timestamped backup file name.  The host parser step of
`_compile_vba_module` (`ProcOfLine`) is modelled as accepting, so the
embedded post-validation is exactly the `_check_vba_syntax` pre-check;
read-back of a module returns the stored text. -/
def injectVba (st : InjectState) (moduleName code : String)
    (createBackup : Bool) (serialize : List (String × String) → List Nat)
    (backupName : String) : InjectState × Except InjectError InjectResult :=
  match detectNonAscii code with
  | some _ =>
    (st, Except.error (InjectError.nonAscii (injectNonAsciiMessage code)))
  | none =>
    let backup : Option (String × List Nat) :=
      if createBackup then some (backupName, st.disk) else none
    let st1 : InjectState :=
      match backup with
      | some b => { st with backupDir := st.backupDir ++ [b] }
      | none => st
    let existing := findModule st1.modules moduleName
    let oldCode : Option String :=
      match existing with
      | some old => if old = "" then none else some old
      | none => none
    let action := if existing.isSome then "updated" else "created"
    let modules1 :=
      match existing with
      | some _ => setModule st1.modules moduleName code
      | none => st1.modules ++ [(moduleName, code)]
    let compileError : Option String :=
      if (pySplitlines code).isEmpty then none else vbaSyntaxCheck code
    match compileError with
    | some msg =>
      let modules2 :=
        match oldCode with
        | some old => setModule modules1 moduleName old
        | none => removeModule modules1 moduleName
      let st2 := { st1 with modules := modules2 }
      (restoreFromBackup st2 backup,
        wrapIfBackup
          (InjectError.validation (validationFailedMessage msg oldCode.isSome))
          backup)
    | none =>
      let st2 := { st1 with modules := modules1, disk := serialize modules1 }
      if code = "" then
        match backup with
        | some b =>
          ({ st2 with disk := b.2 },
            Except.error (InjectError.wrapped (InjectError.verification
              ("Injection verification failed: " ++ verificationEmptyMessage ++
                "\nFile restored from backup: " ++ b.1)) b.1))
        | none =>
          (st2, Except.error (InjectError.verification
            ("Injection verification failed: " ++ verificationEmptyMessage)))
      else (st2, Except.ok (InjectResult.mk action true true))

/-! Substring lemmas used to reason about the error-message contents. -/

theorem nil_isPrefixOf (l : List Char) : List.isPrefixOf [] l = true := by
  cases l <;> rfl

theorem isPrefixOf_append_self (pat r : List Char) :
    pat.isPrefixOf (pat ++ r) = true := by
  induction pat with
  | nil => exact nil_isPrefixOf r
  | cons a p ih => simp [List.isPrefixOf, ih]

theorem isPrefixOf_extend {pat l : List Char} (x : List Char)
    (h : pat.isPrefixOf l = true) : pat.isPrefixOf (l ++ x) = true := by
  induction pat generalizing l with
  | nil => exact nil_isPrefixOf (l ++ x)
  | cons a p ih =>
    cases l with
    | nil => simp [List.isPrefixOf] at h
    | cons b t =>
      simp only [List.isPrefixOf, Bool.and_eq_true] at h
      simp [List.isPrefixOf, h.1, ih h.2]

theorem infixCheck_of_prefix {pat h : List Char} (hp : pat.isPrefixOf h = true) :
    infixCheck pat h = true := by
  cases h with
  | nil => exact hp
  | cons c rest => simp [infixCheck, hp]

theorem infixCheck_append_left (a : List Char) {pat b : List Char}
    (hb : infixCheck pat b = true) : infixCheck pat (a ++ b) = true := by
  induction a with
  | nil => exact hb
  | cons c a ih => simp [infixCheck, ih]

theorem infixCheck_append_right {pat h : List Char} (x : List Char)
    (hh : infixCheck pat h = true) : infixCheck pat (h ++ x) = true := by
  induction h with
  | nil =>
    simp only [infixCheck] at hh
    exact infixCheck_of_prefix (isPrefixOf_extend x hh)
  | cons c t ih =>
    simp only [infixCheck, Bool.or_eq_true] at hh
    rcases hh with hh | hh
    · exact infixCheck_of_prefix (isPrefixOf_extend x hh)
    · simp [infixCheck, ih hh]

theorem string_data_append (x y : String) : (x ++ y).data = x.data ++ y.data := by
  cases x
  cases y
  rfl

theorem containsSubstr_appL (x : String) {h pat : String}
    (hc : containsSubstr h pat = true) : containsSubstr (x ++ h) pat = true := by
  unfold containsSubstr at hc ⊢
  rw [string_data_append]
  exact infixCheck_append_left x.data hc

theorem containsSubstr_appR (x : String) {h pat : String}
    (hc : containsSubstr h pat = true) : containsSubstr (h ++ x) pat = true := by
  unfold containsSubstr at hc ⊢
  rw [string_data_append]
  exact infixCheck_append_right x.data hc

theorem containsSubstr_self (pat : String) : containsSubstr pat pat = true := by
  unfold containsSubstr
  refine infixCheck_of_prefix ?_
  have := isPrefixOf_append_self pat.data []
  simpa using this

theorem containsSubstr_mem_joinWith {s : String} {parts : List String}
    (sep : String) (h : s ∈ parts) :
    containsSubstr (joinWith sep parts) s = true := by
  induction parts with
  | nil => simp at h
  | cons x rest ih =>
    cases rest with
    | nil =>
      simp at h
      subst h
      exact containsSubstr_self s
    | cons y rest2 =>
      rcases List.mem_cons.mp h with h1 | h1
      · subst h1
        show containsSubstr ((s ++ sep) ++ joinWith sep (y :: rest2)) s = true
        exact containsSubstr_appR _ (containsSubstr_appR _ (containsSubstr_self s))
      · show containsSubstr ((x ++ sep) ++ joinWith sep (y :: rest2)) s = true
        exact containsSubstr_appL _ (ih h1)

/-! Lemmas on the non-ASCII scan. -/

theorem nonAsciiAux_nil_of_ascii {cs : List Char}
    (h : ∀ c ∈ cs, c.toNat ≤ 127) : ∀ i l, nonAsciiAux cs i l = [] := by
  induction cs with
  | nil => intro i l; rfl
  | cons c rest ih =>
    intro i l
    have hc : ¬ 127 < c.toNat := by
      have := h c (by simp)
      omega
    rw [nonAsciiAux, if_neg hc, List.nil_append]
    exact ih (fun x hx => h x (by simp [hx])) (i + 1) _

theorem nonAsciiAux_ne_nil {cs : List Char} {c0 : Char} (hm : c0 ∈ cs)
    (hbig : 127 < c0.toNat) : ∀ i l, nonAsciiAux cs i l ≠ [] := by
  induction cs with
  | nil => simp at hm
  | cons c rest ih =>
    intro i l
    by_cases hc : 127 < c.toNat
    · rw [nonAsciiAux, if_pos hc]
      simp
    · rcases List.mem_cons.mp hm with h1 | h1
      · subst h1
        exact absurd hbig hc
      · rw [nonAsciiAux, if_neg hc, List.nil_append]
        exact ih h1 (i + 1) _

/-! Lemmas on the block-balance scan. -/

theorem get_add_self (c : BlockCounters) (k : BlockKind) (d : Int) :
    (c.add k d).get k = c.get k + d := by
  cases k <;> rfl

theorem get_add_other (c : BlockCounters) (k : BlockKind) (d : Int)
    {k2 : BlockKind} (h : k2 ≠ k) : (c.add k d).get k2 = c.get k2 := by
  cases k <;> cases k2 <;> first | rfl | exact absurd rfl h

theorem zero_get (k : BlockKind) : zeroCounters.get k = 0 := by
  cases k <;> rfl

/-- Lines of a list classified with a given effect (the per-code counts
`openerCount`/`closerCount` are this over `pySplitlines`). -/
def effCount (e : LineEffect) (ls : List (List Char)) : Nat :=
  ((ls.filterMap preprocessLine).filter fun t => lineEffect t == e).length

theorem effCount_cons_skip {line : List Char} {rest : List (List Char)}
    (h : preprocessLine line = none) (e : LineEffect) :
    effCount e (line :: rest) = effCount e rest := by
  simp [effCount, List.filterMap_cons, h]

theorem effCount_cons_eff {line t : List Char} {rest : List (List Char)}
    (h : preprocessLine line = some t) (e : LineEffect) :
    effCount e (line :: rest) =
      (if lineEffect t == e then 1 else 0) + effCount e rest := by
  simp only [effCount, List.filterMap_cons, h, List.filter_cons]
  by_cases he : (lineEffect t == e) = true
  · simp only [he, if_true, List.length_cons]
    omega
  · simp [he]

theorem scanBlocks_ok_counts :
    ∀ (ls : List (List Char)) (n : Nat) (c c2 : BlockCounters),
      scanBlocks ls n c = Except.ok c2 → ∀ k,
      c2.get k = c.get k + (effCount (LineEffect.openBlock k) ls : Int) -
        (effCount (LineEffect.closeBlock k) ls : Int) := by
  intro ls
  induction ls with
  | nil =>
    intro n c c2 h k
    simp only [scanBlocks] at h
    cases h
    simp [effCount]
  | cons line rest ih =>
    intro n c c2 h k
    rw [scanBlocks] at h
    cases hpre : preprocessLine line with
    | none =>
      rw [hpre] at h
      rw [effCount_cons_skip hpre, effCount_cons_skip hpre]
      exact ih (n + 1) c c2 h k
    | some t =>
      rw [hpre] at h
      dsimp only at h
      rw [effCount_cons_eff hpre, effCount_cons_eff hpre]
      cases heff : lineEffect t with
      | noEffect =>
        rw [heff] at h
        dsimp only at h
        have h1 := ih (n + 1) c c2 h k
        have e1 : (if LineEffect.noEffect == LineEffect.openBlock k then (1 : Nat)
            else 0) = 0 := by
          simp
        have e2 : (if LineEffect.noEffect == LineEffect.closeBlock k then (1 : Nat)
            else 0) = 0 := by
          simp
        rw [e1, e2]
        omega
      | openBlock k0 =>
        rw [heff] at h
        dsimp only at h
        have h1 := ih (n + 1) (c.add k0 1) c2 h k
        have e2 : (if LineEffect.openBlock k0 == LineEffect.closeBlock k then (1 : Nat)
            else 0) = 0 := by
          simp
        by_cases hk : k = k0
        · subst hk
          rw [get_add_self] at h1
          have e1 : (if LineEffect.openBlock k == LineEffect.openBlock k then (1 : Nat)
              else 0) = 1 := by
            simp
          rw [e1, e2]
          omega
        · rw [get_add_other c k0 1 (by exact hk)] at h1
          have e1 : (if LineEffect.openBlock k0 == LineEffect.openBlock k then (1 : Nat)
              else 0) = 0 := by
            simp only [beq_iff_eq, LineEffect.openBlock.injEq]
            rw [if_neg (fun hx => hk hx.symm)]
          rw [e1, e2]
          omega
      | closeBlock k0 =>
        rw [heff] at h
        dsimp only at h
        by_cases hneg : (c.add k0 (-1)).get k0 < 0
        · rw [if_pos hneg] at h
          cases h
        · rw [if_neg hneg] at h
          have h1 := ih (n + 1) (c.add k0 (-1)) c2 h k
          have e1 : (if LineEffect.closeBlock k0 == LineEffect.openBlock k then (1 : Nat)
              else 0) = 0 := by
            simp
          by_cases hk : k = k0
          · subst hk
            rw [get_add_self] at h1
            have e2 : (if LineEffect.closeBlock k == LineEffect.closeBlock k then (1 : Nat)
                else 0) = 1 := by
              simp
            rw [e1, e2]
            omega
          · rw [get_add_other c k0 (-1) (by exact hk)] at h1
            have e2 : (if LineEffect.closeBlock k0 == LineEffect.closeBlock k then (1 : Nat)
                else 0) = 0 := by
              simp only [beq_iff_eq, LineEffect.closeBlock.injEq]
              rw [if_neg (fun hx => hk hx.symm)]
            rw [e1, e2]
            omega

theorem scanBlocks_ok_nonneg :
    ∀ (ls : List (List Char)) (n : Nat) (c c2 : BlockCounters),
      (∀ k, 0 ≤ c.get k) → scanBlocks ls n c = Except.ok c2 →
      ∀ k, 0 ≤ c2.get k := by
  intro ls
  induction ls with
  | nil =>
    intro n c c2 hc h k
    simp only [scanBlocks] at h
    cases h
    exact hc k
  | cons line rest ih =>
    intro n c c2 hc h k
    rw [scanBlocks] at h
    cases hpre : preprocessLine line with
    | none =>
      rw [hpre] at h
      exact ih (n + 1) c c2 hc h k
    | some t =>
      rw [hpre] at h
      dsimp only at h
      cases heff : lineEffect t with
      | noEffect =>
        rw [heff] at h
        dsimp only at h
        exact ih (n + 1) c c2 hc h k
      | openBlock k0 =>
        rw [heff] at h
        dsimp only at h
        refine ih (n + 1) (c.add k0 1) c2 ?_ h k
        intro k1
        by_cases hk : k1 = k0
        · subst hk
          rw [get_add_self]
          have := hc k1
          omega
        · rw [get_add_other c k0 1 hk]
          exact hc k1
      | closeBlock k0 =>
        rw [heff] at h
        dsimp only at h
        by_cases hneg : (c.add k0 (-1)).get k0 < 0
        · rw [if_pos hneg] at h
          cases h
        · rw [if_neg hneg] at h
          refine ih (n + 1) (c.add k0 (-1)) c2 ?_ h k
          intro k1
          by_cases hk : k1 = k0
          · subst hk
            omega
          · rw [get_add_other c k0 (-1) hk]
            exact hc k1

theorem mem_kindOrder (k : BlockKind) : k ∈ kindOrder := by
  cases k <;> simp [kindOrder]

/-- An imbalance between the check's own opener and closer counts for some
block kind makes `_check_vba_syntax` reject. -/
theorem unbalanced_check_fails {k : BlockKind} {code : String}
    (hU : openerCount k code ≠ closerCount k code) :
    ∃ msg, vbaSyntaxCheck code = some msg := by
  by_cases hres : vbaSyntaxCheck code = none
  · exfalso
    unfold vbaSyntaxCheck at hres
    cases hscan : scanBlocks (pySplitlines code) 1 zeroCounters with
    | error e => rw [hscan] at hres; simp at hres
    | ok c =>
      rw [hscan] at hres
      dsimp only at hres
      by_cases hempty : (unclosedItems c).isEmpty = true
      · have hle : ∀ k1, c.get k1 ≤ 0 := by
          intro k1
          have hnil : unclosedItems c = [] := by
            cases hcase : unclosedItems c
            · rfl
            · rw [hcase] at hempty; simp at hempty
          unfold unclosedItems at hnil
          rw [List.filterMap_eq_nil_iff] at hnil
          have := hnil k1 (mem_kindOrder k1)
          by_cases hpos : 0 < c.get k1
          · rw [if_pos hpos] at this; simp at this
          · omega
        have hcounts := scanBlocks_ok_counts (pySplitlines code) 1
          zeroCounters c hscan k
        have hnn := scanBlocks_ok_nonneg (pySplitlines code) 1
          zeroCounters c (fun k1 => by rw [zero_get]) hscan k
        rw [zero_get] at hcounts
        have hop : openerCount k code = effCount (LineEffect.openBlock k)
          (pySplitlines code) := rfl
        have hcl : closerCount k code = effCount (LineEffect.closeBlock k)
          (pySplitlines code) := rfl
        have := hle k
        rw [hop, hcl]  at hU
        omega
      · rw [if_neg hempty] at hres
        simp at hres
  · cases hsome : vbaSyntaxCheck code with
    | none => exact absurd hsome hres
    | some msg => exact ⟨msg, rfl⟩

/-- Every rejection message of `_check_vba_syntax` is either a
closer-without-opener line message or the header plus unclosed-count items,
each naming a positive count. -/
theorem vbaSyntaxCheck_shape {code : String} {msg : String}
    (h : vbaSyntaxCheck code = some msg) :
    (∃ n k, msg = lineErrorMessage n k) ∨
    (∃ items, items ≠ [] ∧
      msg = "VBA Syntax Error:\n  " ++ joinWith "\n  " items ∧
      ∀ it ∈ items, ∃ k n, 0 < n ∧ it = unclosedItem k n) := by
  unfold vbaSyntaxCheck at h
  cases hscan : scanBlocks (pySplitlines code) 1 zeroCounters with
  | error e =>
    rw [hscan] at h
    simp at h
    exact Or.inl ⟨e.1, e.2, h.symm⟩
  | ok c =>
    rw [hscan] at h
    dsimp only at h
    by_cases hempty : (unclosedItems c).isEmpty = true
    · rw [if_pos hempty] at h
      simp at h
    · rw [if_neg hempty] at h
      simp at h
      refine Or.inr ⟨unclosedItems c, ?_, h.symm, ?_⟩
      · intro hnil
        rw [hnil] at hempty
        simp at hempty
      · intro it hit
        unfold unclosedItems at hit
        rw [List.mem_filterMap] at hit
        obtain ⟨k, _, hk⟩ := hit
        by_cases hpos : 0 < c.get k
        · rw [if_pos hpos] at hk
          simp at hk
          refine ⟨k, (c.get k).toNat, by omega, hk.symm⟩
        · rw [if_neg hpos] at hk
          simp at hk

/-- C10: normalisation used by the edit-pipeline verification is idempotent
(`_normalize_vba_code(_normalize_vba_code(s, b), b) = _normalize_vba_code(s, b)`
for every string `s` and flag `b`). -/
theorem normalizeVbaCode_idem (s : String) (b : Bool) :
    normalizeVbaCode (normalizeVbaCode s b) b = normalizeVbaCode s b := by
  unfold normalizeVbaCode
  have hs : pySplitlines (String.mk (joinNl (normalizeLines b (pySplitlines s)))) =
      normalizeLines b (pySplitlines s) := by
    show splitlinesChars (joinNl (normalizeLines b (pySplitlines s))) [] = _
    exact splitlines_joinNl _ (normalizeLines_no_nl b s)
      (normalizeLines_getLast?_ne_nil b (pySplitlines s))
  rw [hs, normalizeLines_idem]

/-- The pipeline rejected with the validation `ValueError` built from
compile-error text `msg`, either directly or wrapped in the backup-naming
`RuntimeError` of `inject_vba_tool`. -/
def rejectsWithValidation (r : Except InjectError InjectResult)
    (msg : String) : Prop :=
  (∃ hadOld, r = Except.error (InjectError.validation
      (validationFailedMessage msg hadOld))) ∨
  (∃ hadOld bname, r = Except.error (InjectError.wrapped
      (InjectError.validation (validationFailedMessage msg hadOld)) bname))

/-- When the body passes the non-ASCII gate, has at least one line and fails
the syntax check, the pipeline leaves the disk bytes unchanged and rejects
with the validation error. -/
theorem injectVba_validation_path (st : InjectState) (mn code : String)
    (cb : Bool) (ser : List (String × String) → List Nat) (bn msg : String)
    (hA : detectNonAscii code = none)
    (hne : (pySplitlines code).isEmpty = false)
    (hS : vbaSyntaxCheck code = some msg) :
    (injectVba st mn code cb ser bn).1.disk = st.disk ∧
    rejectsWithValidation (injectVba st mn code cb ser bn).2 msg := by
  cases cb with
  | false =>
    simp only [injectVba, hA, hne, Bool.false_eq_true, if_false, hS]
    refine ⟨rfl, Or.inl ⟨_, rfl⟩⟩
  | true =>
    simp only [injectVba, hA, hne, Bool.false_eq_true, if_false, hS,
      if_true, wrapIfBackup, restoreFromBackup]
    refine ⟨trivial, Or.inr ⟨_, bn, rfl⟩⟩

/-- C1: for every injection request whose body passes the non-ASCII gate but
has unbalanced blocks (the check's opener and closer counts for some block
kind among If/For/While/Do/With/Select/Sub/Function differ), the pipeline
rejects with the validation error and the container bytes equal their
pre-call state; the rejection message is either the unmatched-closer line
diagnostic or the header with one unclosed-count item per offending kind —
it names an unclosed-block count only in the latter shape. -/
theorem inject_unbalanced_rejected (st : InjectState) (mn code : String)
    (cb : Bool) (ser : List (String × String) → List Nat) (bn : String)
    (k : BlockKind) (hA : detectNonAscii code = none)
    (hU : openerCount k code ≠ closerCount k code) :
    (injectVba st mn code cb ser bn).1.disk = st.disk ∧
    ∃ msg, vbaSyntaxCheck code = some msg ∧
      rejectsWithValidation (injectVba st mn code cb ser bn).2 msg ∧
      ((∃ n kk, msg = lineErrorMessage n kk) ∨
       (∃ items, items ≠ [] ∧
         msg = "VBA Syntax Error:\n  " ++ joinWith "\n  " items ∧
         ∀ it ∈ items, ∃ kk n, 0 < n ∧ it = unclosedItem kk n)) := by
  obtain ⟨msg, hS⟩ := unbalanced_check_fails hU
  have hne : (pySplitlines code).isEmpty = false := by
    cases hsp : (pySplitlines code).isEmpty
    · rfl
    · exfalso
      have hnil : pySplitlines code = [] := by
        cases hc : pySplitlines code
        · rfl
        · rw [hc] at hsp
          simp at hsp
      apply hU
      simp [openerCount, closerCount, hnil]
  have hpath := injectVba_validation_path st mn code cb ser bn msg hA hne hS
  exact ⟨hpath.1, msg, hS, hpath.2, vbaSyntaxCheck_shape hS⟩

/-- C1 witness: a body consisting of the single opener line If True Then is
rejected by the pipeline with the validation error while the disk bytes stay
unchanged. -/
theorem inject_unbalanced_rejected_witness :
    detectNonAscii "If True Then" = none ∧
    openerCount BlockKind.kIf "If True Then" ≠
      closerCount BlockKind.kIf "If True Then" ∧
    ((injectVba ⟨[0, 1], [], []⟩ "Module1" "If True Then" true
        (fun _ => [2]) "bak").1.disk = [0, 1] ∧
      ∃ msg, vbaSyntaxCheck "If True Then" = some msg ∧
        rejectsWithValidation (injectVba ⟨[0, 1], [], []⟩ "Module1"
          "If True Then" true (fun _ => [2]) "bak").2 msg ∧
        ((∃ n kk, msg = lineErrorMessage n kk) ∨
         (∃ items, items ≠ [] ∧
           msg = "VBA Syntax Error:\n  " ++ joinWith "\n  " items ∧
           ∀ it ∈ items, ∃ kk n, 0 < n ∧ it = unclosedItem kk n))) :=
  ⟨by decide, by decide,
    inject_unbalanced_rejected ⟨[0, 1], [], []⟩ "Module1" "If True Then" true
      (fun _ => [2]) "bak" BlockKind.kIf (by decide) (by decide)⟩

/-- C1 counterexample: the unbalanced body End Sub (a closer with no
matching opener, so the Sub counts differ) is rejected, but the message is
the line diagnostic, which names no unclosed-block count — the word
unclosed does not occur in it. -/
theorem inject_endsub_counterexample :
    openerCount BlockKind.kSub "End Sub" ≠ closerCount BlockKind.kSub "End Sub" ∧
    vbaSyntaxCheck "End Sub" = some (lineErrorMessage 1 BlockKind.kSub) ∧
    containsSubstr (lineErrorMessage 1 BlockKind.kSub) "unclosed" = false ∧
    (injectVba ⟨[5], [], []⟩ "M" "End Sub" false (fun _ => []) "b").2 =
      Except.error (InjectError.validation
        (validationFailedMessage (lineErrorMessage 1 BlockKind.kSub) false)) ∧
    (injectVba ⟨[5], [], []⟩ "M" "End Sub" false (fun _ => []) "b").1.disk =
      [5] :=
  ⟨by decide, by decide, by decide, rfl, rfl⟩

/-- Shape of `detectNonAscii` on a body with occurrences. -/
theorem detectNonAscii_cons {code : String} {o : Char × Nat × Nat}
    {rest : List (Char × Nat × Nat)}
    (hocc : nonAsciiOccurrences code = o :: rest) :
    detectNonAscii code = some (nonAsciiMessage (o :: rest) o.2.2) := by
  unfold detectNonAscii
  rw [hocc]

theorem detectNonAscii_none_of_ascii {code : String}
    (h : ∀ c ∈ code.data, c.toNat ≤ 127) : detectNonAscii code = none := by
  unfold detectNonAscii
  have hnil : nonAsciiOccurrences code = [] := nonAsciiAux_nil_of_ascii h 0 1
  rw [hnil]

theorem nonAsciiOccurrences_ne_nil {code : String} {c0 : Char}
    (hm : c0 ∈ code.data) (hbig : 127 < c0.toNat) :
    nonAsciiOccurrences code ≠ [] :=
  nonAsciiAux_ne_nil hm hbig 0 1

/-- Everything the detector message holds also occurs in the ValueError
text of `inject_vba_tool`. -/
theorem injectMessage_contains_of_inner {code m pat : String}
    (h : detectNonAscii code = some m)
    (hc : containsSubstr m pat = true) :
    containsSubstr (injectNonAsciiMessage code) pat = true := by
  unfold injectNonAsciiMessage
  rw [h]
  exact containsSubstr_appR _ (containsSubstr_appR _ (containsSubstr_appR _
    (containsSubstr_appL _ hc)))

theorem nonAsciiMessage_contains_found (occs : List (Char × Nat × Nat))
    (l : Nat) :
    containsSubstr (nonAsciiMessage occs l) (foundClause occs.length) = true := by
  unfold nonAsciiMessage
  exact containsSubstr_appR _ (containsSubstr_appR _ (containsSubstr_appR _
    (containsSubstr_appR _ (containsSubstr_appR _
      (containsSubstr_appL _ (containsSubstr_self _))))))

theorem nonAsciiMessage_contains_repr {occs : List (Char × Nat × Nat)}
    (l : Nat) {ch : Char} (hm : ch ∈ occs.map fun o => o.1) :
    containsSubstr (nonAsciiMessage occs l) (pyReprChar ch) = true := by
  unfold nonAsciiMessage
  have hj : containsSubstr
      (joinWith ", " ((uniqueNonAsciiChars occs).map pyReprChar))
      (pyReprChar ch) = true := by
    refine containsSubstr_mem_joinWith _ ?_
    refine List.mem_map_of_mem _ ?_
    simpa [uniqueNonAsciiChars, List.mem_dedup] using hm
  exact containsSubstr_appR _ (containsSubstr_appR _ (containsSubstr_appR _
    (containsSubstr_appL _ hj)))

theorem nonAsciiMessage_contains_common (occs : List (Char × Nat × Nat))
    (l : Nat) :
    containsSubstr (nonAsciiMessage occs l) "Common replacements:" = true := by
  unfold nonAsciiMessage
  have hc : containsSubstr "\n\nCommon replacements:\n"
      "Common replacements:" = true := by decide
  exact containsSubstr_appR _ (containsSubstr_appR _ (containsSubstr_appL _ hc))

theorem nonAsciiMessage_contains_firstline (occs : List (Char × Nat × Nat))
    (l : Nat) :
    containsSubstr (nonAsciiMessage occs l) (firstLineClause l) = true := by
  unfold nonAsciiMessage
  exact containsSubstr_appL _ (containsSubstr_self _)

/-- On an all-ASCII body no branch of the pipeline produces the non-ASCII
rejection. -/
theorem injectVba_no_nonascii (st : InjectState) (mn code : String)
    (cb : Bool) (ser : List (String × String) → List Nat) (bn : String)
    (hA : detectNonAscii code = none) :
    ∀ m, (injectVba st mn code cb ser bn).2 ≠
      Except.error (InjectError.nonAscii m) := by
  intro m hcon
  unfold injectVba at hcon
  rw [hA] at hcon
  dsimp only at hcon
  split at hcon
  · unfold wrapIfBackup at hcon
    split at hcon <;> simp at hcon
  · split at hcon
    · split at hcon <;> simp at hcon
    · simp at hcon

/-- C2: for every injection request whose body holds a character with
codepoint above 127, the pipeline rejects before any mutation (the whole
state, disk included, is returned unchanged) with the non-ASCII ValueError,
whose text names each distinct offending character, the total occurrence
count, the line of the first occurrence, and the replacement table header;
for every all-ASCII body the detector passes and no branch of the pipeline
produces that rejection. -/
theorem inject_nonascii_rejected (st : InjectState) (mn code : String)
    (cb : Bool) (ser : List (String × String) → List Nat) (bn : String) :
    ((∃ c ∈ code.data, 127 < c.toNat) →
      injectVba st mn code cb ser bn =
        (st, Except.error (InjectError.nonAscii (injectNonAsciiMessage code))) ∧
      (∀ ch ∈ (nonAsciiOccurrences code).map fun o => o.1,
        containsSubstr (injectNonAsciiMessage code) (pyReprChar ch) = true) ∧
      containsSubstr (injectNonAsciiMessage code)
        (foundClause (nonAsciiOccurrences code).length) = true ∧
      (∃ o rest, nonAsciiOccurrences code = o :: rest ∧
        containsSubstr (injectNonAsciiMessage code)
          (firstLineClause o.2.2) = true) ∧
      containsSubstr (injectNonAsciiMessage code) "Common replacements:" = true) ∧
    ((∀ c ∈ code.data, c.toNat ≤ 127) →
      detectNonAscii code = none ∧
      ∀ m, (injectVba st mn code cb ser bn).2 ≠
        Except.error (InjectError.nonAscii m)) := by
  constructor
  · rintro ⟨c0, hm, hbig⟩
    obtain ⟨o, rest, hocc⟩ : ∃ o rest, nonAsciiOccurrences code = o :: rest := by
      cases hc : nonAsciiOccurrences code with
      | nil => exact absurd hc (nonAsciiOccurrences_ne_nil hm hbig)
      | cons o rest => exact ⟨o, rest, rfl⟩
    have hdet := detectNonAscii_cons hocc
    refine ⟨?_, ?_, ?_, ?_, ?_⟩
    · unfold injectVba
      rw [hdet]
    · intro ch hch
      rw [hocc] at hch
      exact injectMessage_contains_of_inner hdet
        (nonAsciiMessage_contains_repr _ hch)
    · rw [hocc]
      exact injectMessage_contains_of_inner hdet
        (nonAsciiMessage_contains_found _ _)
    · exact ⟨o, rest, hocc, injectMessage_contains_of_inner hdet
        (nonAsciiMessage_contains_firstline _ _)⟩
    · exact injectMessage_contains_of_inner hdet
        (nonAsciiMessage_contains_common _ _)
  · intro h
    have hA := detectNonAscii_none_of_ascii h
    exact ⟨hA, injectVba_no_nonascii st mn code cb ser bn hA⟩

/-- C2 witness: a one-character body é is rejected with the non-ASCII error
and an unchanged state, and the all-ASCII body x = 1 is never rejected for
non-ASCII content. -/
theorem inject_nonascii_rejected_witness :
    (injectVba ⟨[9], [], []⟩ "M" "é" false (fun _ => []) "b" =
      (⟨[9], [], []⟩,
        Except.error (InjectError.nonAscii (injectNonAsciiMessage "é")))) ∧
    (∀ m, (injectVba ⟨[9], [], []⟩ "M" "x = 1" false (fun _ => []) "b").2 ≠
      Except.error (InjectError.nonAscii m)) :=
  ⟨((inject_nonascii_rejected ⟨[9], [], []⟩ "M" "é" false (fun _ => []) "b").1
      ⟨Char.ofNat 233, by decide, by decide⟩).1,
   ((inject_nonascii_rejected ⟨[9], [], []⟩ "M" "x = 1" false
      (fun _ => []) "b").2 (by decide)).2⟩

set_option maxRecDepth 10000 in
/-- C2 counterexample: on the body é, blank line, ü the offending
characters sit on lines 1 and 3, yet the rejection text never names line 3
(the digit 3 does not occur in it): only the first occurrence line is
reported, so the error does not enumerate the characters with their line
numbers. -/
theorem inject_nonascii_lines_counterexample :
    ((nonAsciiOccurrences "é\n\nü").map fun o => o.2.2) = [1, 3] ∧
    containsSubstr (injectNonAsciiMessage "é\n\nü") "3" = false ∧
    (injectVba ⟨[7], [], []⟩ "M" "é\n\nü" false (fun _ => []) "b").2 =
      Except.error (InjectError.nonAscii (injectNonAsciiMessage "é\n\nü")) :=
  ⟨by decide, by decide, rfl⟩

end VbaMcp
